import Mathlib

/-!
Verification of the delta-neutral strategy simulator (`simulation.ts`).

The source manipulates `bignumber.js` decimal values configured (in `index.ts`)
with `DECIMAL_PLACES: 9` and `ROUNDING_MODE: BN.ROUND_DOWN`.  Such a value is an
exact decimal number `m / 10^e`; addition, subtraction and multiplication are
exact, while `div` and `sqrt` round the exact result to 9 decimal places toward
zero, and `decimalPlaces(n, BN.ROUND_FLOOR)` rounds to `n` places toward minus
infinity.  We embed the values as pairs of an integer mantissa and a decimal
exponent (the type `D` below) with exactly those operations, and interpret
them into `ℚ` (`toQ`) to state and prove the numeric properties.

Division by zero and square roots of negative numbers produce the non-finite
values `Infinity`/`NaN` in `bignumber.js`; those cannot be represented in an
exact-arithmetic model.  Each place where the simulator could hit such a value
is modelled explicitly and commented at its call site.
-/

namespace DeltaNeutral

set_option maxRecDepth 100000
set_option maxHeartbeats 1600000

/-- Truncating (toward-zero) integer division, the rounding of
`BN.ROUND_DOWN`: the sign of the exact quotient together with the floor of the
quotient of absolute values. -/
def tdivInt (a b : ℤ) : ℤ :=
  (if (0 ≤ a) = (0 ≤ b) then (1 : ℤ) else -1) * ((a.natAbs / b.natAbs : ℕ) : ℤ)

/-- Bit-by-bit integer square root: `isqrtGo n i lo` adds the bit `2^i` to the
candidate `lo` whenever the square stays below `n`. -/
def isqrtGo (n : ℕ) : ℕ → ℕ → ℕ
  | 0, lo => lo
  | i + 1, lo => isqrtGo n i (if (lo + 2 ^ i) ^ 2 ≤ n then lo + 2 ^ i else lo)

/-- Fuelled base-2 logarithm (the fuel only bounds the recursion depth). -/
def log2fuel : ℕ → ℕ → ℕ
  | 0, _ => 0
  | f + 1, n => if n ≤ 1 then 0 else log2fuel f (n / 2) + 1

/-- Integer square root: `isqrt n` is the floor of the square root of `n`. -/
def isqrt (n : ℕ) : ℕ := isqrtGo n (log2fuel n n / 2 + 1) 0

/-- An exact decimal number: the value `m / 10^e`.  This is the shape of a
finite `bignumber.js` value (decimal coefficient and exponent). -/
structure D where
  m : ℤ
  e : ℕ
deriving DecidableEq

/-- Interpretation of a decimal into the rationals. -/
def toQ (a : D) : ℚ := (a.m : ℚ) / 10 ^ a.e

/-- Exact addition (`BN.plus`). -/
def dAdd (a b : D) : D :=
  ⟨a.m * 10 ^ (max a.e b.e - a.e) + b.m * 10 ^ (max a.e b.e - b.e), max a.e b.e⟩

/-- Exact negation (`BN.negated`). -/
def dNeg (a : D) : D := ⟨-a.m, a.e⟩

/-- Exact subtraction (`BN.minus`). -/
def dSub (a b : D) : D := dAdd a (dNeg b)

/-- Exact multiplication (`BN.times`). -/
def dMul (a b : D) : D := ⟨a.m * b.m, a.e + b.e⟩

/-- Value comparison (`BN.lte` and the ordering used by `BN.min`). -/
def dLe (a b : D) : Bool := a.m * 10 ^ b.e ≤ b.m * 10 ^ a.e

/-- Strict value comparison (`BN.lt` / `BN.gt` with the sides swapped). -/
def dLt (a b : D) : Bool := a.m * 10 ^ b.e < b.m * 10 ^ a.e

/-- Minimum by value (`BN.min`); returns one of its arguments. -/
def dMin (a b : D) : D := if dLe a b then a else b

/-- Absolute value (`BN.abs`). -/
def dAbs (a : D) : D := if a.m < 0 then dNeg a else a

/-- `BN.div` under `DECIMAL_PLACES: 9, ROUND_DOWN`: the exact quotient
truncated toward zero at the ninth decimal place.  `bignumber.js` returns
`Infinity` or `NaN` on a zero divisor; the `0` returned here is junk and every
call site that can reach a zero divisor handles that case explicitly. -/
def dDiv9 (a b : D) : D :=
  if b.m = 0 then ⟨0, 0⟩ else ⟨tdivInt (a.m * 10 ^ (b.e + 9)) (b.m * 10 ^ a.e), 9⟩

/-- `BN.sqrt` under `DECIMAL_PLACES: 9, ROUND_DOWN`: the exact square root
truncated at the ninth decimal place.  `bignumber.js` returns `NaN` on a
negative argument; the `0` returned here is junk and call sites that can reach
a negative argument handle that case explicitly. -/
def dSqrt9 (a : D) : D :=
  if a.m < 0 then ⟨0, 0⟩ else ⟨(isqrt ((a.m * 10 ^ 18).ediv (10 ^ a.e)).toNat : ℤ), 9⟩

/-- `BN.decimalPlaces (dp, BN.ROUND_FLOOR)`: rounding toward minus infinity at
`dp` decimal places. -/
def dFloorAt (dp : ℕ) (a : D) : D := ⟨(a.m * 10 ^ dp).ediv (10 ^ a.e), dp⟩

/-- Integer literal as a decimal. -/
def dInt (n : ℤ) : D := ⟨n, 0⟩

/- ### Specification-side rounding operators over `ℚ`

These are the mathematical descriptions of the roundings; the lemmas below
relate the executable decimal operations to them. -/

/-- Truncation of a rational toward zero, to an integer. -/
def qtruncZ (x : ℚ) : ℤ := if 0 ≤ x then ⌊x⌋ else ⌈x⌉

/-- Truncation of a rational toward zero at `dp` decimal places. -/
def qTrunc (dp : ℕ) (x : ℚ) : ℚ := (qtruncZ (x * 10 ^ dp) : ℚ) / 10 ^ dp

/-- Rounding of a rational toward minus infinity at `dp` decimal places. -/
def qFloorAt (dp : ℕ) (x : ℚ) : ℚ := (⌊x * 10 ^ dp⌋ : ℚ) / 10 ^ dp

/-- The 9-decimal-place truncated square root over `ℚ` (0 on negatives). -/
def qSqrt9 (x : ℚ) : ℚ :=
  if x < 0 then 0 else ((isqrt (⌊x * 10 ^ 18⌋).toNat : ℕ) : ℚ) / 10 ^ 9

/- ### Basic facts about the integer square root -/

theorem isqrtGo_bounds (n : ℕ) :
    ∀ i lo, lo ^ 2 ≤ n → n < (lo + 2 ^ i) ^ 2 →
      (isqrtGo n i lo) ^ 2 ≤ n ∧ n < (isqrtGo n i lo + 1) ^ 2 := by
  intro i
  induction i with
  | zero =>
    intro lo h1 h2
    simpa [isqrtGo] using ⟨h1, by simpa using h2⟩
  | succ i ih =>
    intro lo h1 h2
    simp only [isqrtGo]
    by_cases h : (lo + 2 ^ i) ^ 2 ≤ n
    · simp only [h, if_true]
      refine ih _ h ?_
      have : lo + 2 ^ i + 2 ^ i = lo + 2 ^ (i + 1) := by ring
      rw [this]
      exact h2
    · simp only [h, if_false]
      exact ih _ h1 (by omega)

theorem log2fuel_bound : ∀ f n, n ≤ f → n < 2 ^ (log2fuel f n + 1) := by
  intro f
  induction f with
  | zero => intro n h; simp only [log2fuel]; omega
  | succ f ih =>
    intro n h
    by_cases h1 : n ≤ 1
    · simp only [log2fuel, h1, if_true]
      omega
    · simp only [log2fuel, h1, if_false]
      have hrec : n / 2 < 2 ^ (log2fuel f (n / 2) + 1) := ih (n / 2) (by omega)
      have : n < 2 * (n / 2 + 1) := by omega
      calc n < 2 * (n / 2 + 1) := this
        _ ≤ 2 * 2 ^ (log2fuel f (n / 2) + 1) := by omega
        _ = 2 ^ (log2fuel f (n / 2) + 1 + 1) := by ring

theorem isqrt_bounds (n : ℕ) : (isqrt n) ^ 2 ≤ n ∧ n < (isqrt n + 1) ^ 2 := by
  have hlog := log2fuel_bound n n le_rfl
  refine isqrtGo_bounds n _ 0 (by simp) ?_
  have h2 : log2fuel n n + 1 ≤ 2 * (log2fuel n n / 2 + 1) := by omega
  calc n < 2 ^ (log2fuel n n + 1) := hlog
    _ ≤ 2 ^ (2 * (log2fuel n n / 2 + 1)) := Nat.pow_le_pow_right (by norm_num) h2
    _ = (0 + 2 ^ (log2fuel n n / 2 + 1)) ^ 2 := by
        rw [Nat.zero_add, ← pow_mul, Nat.mul_comm]

/- ### Euclidean division versus rational division -/

theorem ediv_eq_floor (a b : ℤ) (hb : 0 < b) : (a.ediv b : ℚ) = ⌊(a : ℚ) / (b : ℚ)⌋ := by
  have hmod := Int.ediv_add_emod a b
  have h0 : (0 : ℤ) ≤ a.emod b := Int.emod_nonneg a (by omega)
  have h1 : a.emod b < b := Int.emod_lt_of_pos a hb
  have hbq : (0 : ℚ) < (b : ℚ) := by exact_mod_cast hb
  have key : ⌊(a : ℚ) / (b : ℚ)⌋ = a.ediv b := by
    rw [Int.floor_eq_iff]
    constructor
    · rw [le_div_iff₀ hbq]
      have : (a : ℚ) = b * a.ediv b + a.emod b := by exact_mod_cast hmod.symm
      rw [this]
      have : (0 : ℚ) ≤ (a.emod b : ℚ) := by exact_mod_cast h0
      nlinarith
    · rw [div_lt_iff₀ hbq]
      have ha : (a : ℚ) = b * a.ediv b + a.emod b := by exact_mod_cast hmod.symm
      rw [ha]
      have : (a.emod b : ℚ) < (b : ℚ) := by exact_mod_cast h1
      nlinarith
  exact_mod_cast key.symm

theorem tdivInt_nonneg_eq (a b : ℤ) (ha : 0 ≤ a) (hb : 0 < b) :
    (tdivInt a b : ℚ) = ⌊(a : ℚ) / (b : ℚ)⌋ := by
  have h1 : tdivInt a b = a.ediv b := by
    unfold tdivInt
    have hsign : (0 ≤ a) = (0 ≤ b) := by simp [ha, hb.le]
    rw [if_pos hsign, one_mul]
    have ha' : a = (a.natAbs : ℤ) := by omega
    have hb' : b = (b.natAbs : ℤ) := by omega
    rw [ha', hb']
    exact Int.ofNat_ediv a.natAbs b.natAbs
  rw [h1, ediv_eq_floor a b hb]

theorem tdivInt_nonpos_eq (a b : ℤ) (ha : a ≤ 0) (hb : 0 < b) :
    (tdivInt a b : ℚ) = ⌈(a : ℚ) / (b : ℚ)⌉ := by
  have hneg : ((-a).natAbs : ℤ) = -a := by omega
  by_cases ha0 : a = 0
  · subst ha0; simp [tdivInt, Int.ceil_intCast]
  · have h1 : tdivInt a b = -((-a).ediv b) := by
      unfold tdivInt
      have hsign : (0 ≤ a) ≠ (0 ≤ b) := by simp [hb.le]; omega
      rw [if_neg hsign]
      have ha' : a.natAbs = (-a).natAbs := by omega
      rw [ha']
      have h2 : (-a) = ((-a).natAbs : ℤ) := by omega
      have h3 : b = (b.natAbs : ℤ) := by omega
      have h4 : (((-a).natAbs / b.natAbs : ℕ) : ℤ) = (-a).ediv b := by
        rw [h2, h3]
        exact Int.ofNat_ediv (-a).natAbs b.natAbs
      rw [h4]; ring
    rw [h1]
    push_cast
    rw [ediv_eq_floor (-a) b hb]
    rw [show ((-a : ℤ) : ℚ) = -(a : ℚ) by push_cast; ring]
    rw [neg_div]
    rw [Int.floor_neg]
    push_cast
    ring

/- ### Interpretation lemmas: decimal operations versus rational arithmetic -/

theorem q10pow_pos (e : ℕ) : (0 : ℚ) < 10 ^ e := by positivity

theorem q10pow_ne (e : ℕ) : (10 : ℚ) ^ e ≠ 0 := (q10pow_pos e).ne'

theorem toQ_mk (m : ℤ) (e : ℕ) : toQ ⟨m, e⟩ = (m : ℚ) / 10 ^ e := rfl

theorem shift_cancel (m : ℤ) (e E : ℕ) (h : e ≤ E) :
    (m : ℚ) * 10 ^ (E - e) / 10 ^ E = (m : ℚ) / 10 ^ e := by
  rw [div_eq_div_iff (q10pow_ne E) (q10pow_ne e)]
  rw [mul_assoc, ← pow_add]
  rw [Nat.sub_add_cancel h]

theorem toQ_dAdd (a b : D) : toQ (dAdd a b) = toQ a + toQ b := by
  simp only [toQ, dAdd]
  push_cast
  rw [add_div]
  rw [shift_cancel a.m a.e (max a.e b.e) (le_max_left _ _)]
  rw [shift_cancel b.m b.e (max a.e b.e) (le_max_right _ _)]

theorem toQ_dNeg (a : D) : toQ (dNeg a) = -toQ a := by
  simp only [toQ, dNeg]
  push_cast
  rw [neg_div]

theorem toQ_dSub (a b : D) : toQ (dSub a b) = toQ a - toQ b := by
  rw [dSub, toQ_dAdd, toQ_dNeg]
  ring

theorem toQ_dMul (a b : D) : toQ (dMul a b) = toQ a * toQ b := by
  simp only [toQ, dMul]
  push_cast
  rw [pow_add]
  field_simp

theorem toQ_dInt (n : ℤ) : toQ (dInt n) = (n : ℚ) := by
  simp [dInt, toQ]

theorem dLe_true_iff (a b : D) : dLe a b = true ↔ toQ a ≤ toQ b := by
  rw [dLe, decide_eq_true_iff]
  rw [toQ, toQ, div_le_div_iff₀ (q10pow_pos a.e) (q10pow_pos b.e)]
  constructor
  · intro h; exact_mod_cast h
  · intro h; exact_mod_cast h

theorem dLt_true_iff (a b : D) : dLt a b = true ↔ toQ a < toQ b := by
  rw [dLt, decide_eq_true_iff]
  rw [toQ, toQ, div_lt_div_iff₀ (q10pow_pos a.e) (q10pow_pos b.e)]
  constructor
  · intro h; exact_mod_cast h
  · intro h; exact_mod_cast h

theorem dLe_false_iff (a b : D) : dLe a b = false ↔ toQ b < toQ a := by
  rw [← Bool.not_eq_true, not_iff_comm, dLe_true_iff, not_lt]

theorem dLt_false_iff (a b : D) : dLt a b = false ↔ toQ b ≤ toQ a := by
  rw [← Bool.not_eq_true, not_iff_comm, dLt_true_iff, not_le]

theorem toQ_dMin (a b : D) : toQ (dMin a b) = min (toQ a) (toQ b) := by
  rw [dMin]
  rcases h : dLe a b with _ | _
  · rw [dLe_false_iff] at h
    simp [min_eq_right h.le]
  · rw [dLe_true_iff] at h
    simp [min_eq_left h]

theorem toQ_dAbs (a : D) : toQ (dAbs a) = |toQ a| := by
  rw [dAbs]
  rcases lt_or_le a.m 0 with h | h
  · rw [if_pos h, toQ_dNeg, abs_of_neg]
    rw [toQ]
    apply div_neg_of_neg_of_pos _ (q10pow_pos _)
    exact_mod_cast h
  · rw [if_neg (not_lt.mpr h), abs_of_nonneg]
    rw [toQ]
    apply div_nonneg _ (q10pow_pos _).le
    exact_mod_cast h

theorem toQ_nonneg_iff (a : D) : 0 ≤ toQ a ↔ 0 ≤ a.m := by
  rw [toQ]
  constructor
  · intro h
    by_contra hc
    have h1 : (a.m : ℚ) < 0 := by exact_mod_cast not_le.mp hc
    have := div_neg_of_neg_of_pos h1 (q10pow_pos a.e)
    linarith
  · intro h
    exact div_nonneg (by exact_mod_cast h) (q10pow_pos a.e).le

theorem toQ_neg_iff (a : D) : toQ a < 0 ↔ a.m < 0 := by
  rw [← not_le, ← not_le, not_iff_not, toQ_nonneg_iff]

theorem toQ_eq_zero_iff (a : D) : toQ a = 0 ↔ a.m = 0 := by
  rw [toQ, div_eq_zero_iff]
  simp [q10pow_ne a.e]

theorem qtruncZ_neg (x : ℚ) : qtruncZ (-x) = -qtruncZ x := by
  rw [qtruncZ, qtruncZ]
  rcases lt_trichotomy x 0 with h | h | h
  · rw [if_pos (by linarith), if_neg (by linarith), Int.floor_neg]
  · subst h; simp
  · rw [if_neg (by linarith), if_pos (by linarith), Int.ceil_neg]

theorem tdivInt_neg_right (a b : ℤ) : tdivInt a (-b) = -tdivInt a b := by
  by_cases ha : a = 0
  · subst ha; simp [tdivInt]
  · by_cases hb : b = 0
    · subst hb; simp [tdivInt]
    · rw [tdivInt, tdivInt, Int.natAbs_neg]
      by_cases h : (0 ≤ a) = (0 ≤ b)
      · rw [if_pos h, if_neg (by rw [eq_iff_iff] at h ⊢; omega)]
        ring
      · rw [if_neg h, if_pos (by rw [eq_iff_iff] at h ⊢; omega)]
        ring

theorem tdivInt_cast_pos (a b : ℤ) (hb : 0 < b) :
    (tdivInt a b : ℚ) = (qtruncZ ((a : ℚ) / (b : ℚ)) : ℚ) := by
  rcases le_or_lt 0 a with ha | ha
  · rw [tdivInt_nonneg_eq a b ha hb]
    rw [qtruncZ, if_pos]
    exact div_nonneg (by exact_mod_cast ha) (by exact_mod_cast hb.le)
  · rw [tdivInt_nonpos_eq a b ha.le hb]
    rw [qtruncZ, if_neg]
    apply not_le.mpr
    apply div_neg_of_neg_of_pos
    · exact_mod_cast ha
    · exact_mod_cast hb

theorem tdivInt_cast (a b : ℤ) (hb : b ≠ 0) :
    (tdivInt a b : ℚ) = (qtruncZ ((a : ℚ) / (b : ℚ)) : ℚ) := by
  rcases lt_or_gt_of_ne hb with hneg | hpos
  · have h1 : tdivInt a b = -tdivInt a (-b) := by
      have h := tdivInt_neg_right a (-b)
      rw [neg_neg] at h
      omega
    have h2 : (a : ℚ) / (b : ℚ) = -((a : ℚ) / ((-b : ℤ) : ℚ)) := by
      push_cast
      rw [div_neg, neg_neg]
    rw [h1, h2, qtruncZ_neg]
    push_cast
    have h3 := tdivInt_cast_pos a (-b) (by omega)
    push_cast at h3
    rw [h3]
  · exact tdivInt_cast_pos a b hpos

theorem toQ_dDiv9 (a b : D) :
    toQ (dDiv9 a b) = if toQ b = 0 then 0 else qTrunc 9 (toQ a / toQ b) := by
  by_cases hb : b.m = 0
  · rw [if_pos ((toQ_eq_zero_iff b).mpr hb)]
    simp [dDiv9, hb, toQ]
  · rw [if_neg fun h => hb ((toQ_eq_zero_iff b).mp h)]
    have hB : b.m * 10 ^ a.e ≠ 0 := by
      intro h
      rcases mul_eq_zero.mp h with h | h
      · exact hb h
      · exact absurd h (by positivity)
    simp only [dDiv9, if_neg hb, toQ_mk, qTrunc]
    rw [tdivInt_cast _ _ hB]
    congr 3
    have hbq : (b.m : ℚ) ≠ 0 := by exact_mod_cast hb
    rw [toQ, toQ]
    push_cast
    rw [div_div_div_eq]
    rw [pow_add]
    ring

theorem toQ_dFloorAt (dp : ℕ) (a : D) : toQ (dFloorAt dp a) = qFloorAt dp (toQ a) := by
  simp only [dFloorAt, toQ_mk, qFloorAt]
  rw [ediv_eq_floor _ _ (by positivity)]
  congr 2
  rw [toQ]
  push_cast
  ring_nf

theorem toQ_dSqrt9 (a : D) : toQ (dSqrt9 a) = qSqrt9 (toQ a) := by
  by_cases ha : a.m < 0
  · rw [dSqrt9, if_pos ha, qSqrt9, if_pos ((toQ_neg_iff a).mpr ha)]
    simp [toQ]
  · rw [dSqrt9, if_neg ha, qSqrt9, if_neg (fun h => ha ((toQ_neg_iff a).mp h))]
    rw [toQ_mk]
    have h1 := ediv_eq_floor (a.m * 10 ^ 18) (10 ^ a.e) (by positivity)
    have h2 : (a.m * 10 ^ 18).ediv (10 ^ a.e) = ⌊toQ a * 10 ^ 18⌋ := by
      have h3 : ((a.m * 10 ^ 18 : ℤ) : ℚ) / ((10 ^ a.e : ℤ) : ℚ) = toQ a * 10 ^ 18 := by
        rw [toQ]
        push_cast
        ring
      rw [h3] at h1
      exact_mod_cast h1
    rw [h2]
    rw [Int.cast_natCast]

/- ### Bounds for the rounding operators -/

theorem qTrunc_le (dp : ℕ) (x : ℚ) (hx : 0 ≤ x) : qTrunc dp x ≤ x := by
  rw [qTrunc, qtruncZ, if_pos (by positivity)]
  rw [div_le_iff₀ (q10pow_pos dp)]
  exact Int.floor_le _

theorem lt_qTrunc_add (dp : ℕ) (x : ℚ) (hx : 0 ≤ x) : x < qTrunc dp x + (10 ^ dp)⁻¹ := by
  rw [qTrunc, qtruncZ, if_pos (by positivity)]
  have h := Int.lt_floor_add_one (x * 10 ^ dp)
  rw [div_add' _ _ _ (q10pow_ne dp), inv_mul_cancel₀ (q10pow_ne dp)]
  rw [lt_div_iff₀ (q10pow_pos dp)]
  linarith

theorem qTrunc_nonneg (dp : ℕ) (x : ℚ) (hx : 0 ≤ x) : 0 ≤ qTrunc dp x := by
  rw [qTrunc, qtruncZ, if_pos (by positivity)]
  apply div_nonneg _ (q10pow_pos dp).le
  exact_mod_cast Int.floor_nonneg.mpr (by positivity)

theorem le_qTrunc_of_nonpos (dp : ℕ) (x : ℚ) (hx : x ≤ 0) : x ≤ qTrunc dp x := by
  rcases eq_or_lt_of_le hx with h | h
  · rw [h]
    simp [qTrunc, qtruncZ]
  · rw [qTrunc, qtruncZ, if_neg (by nlinarith [q10pow_pos dp])]
    rw [le_div_iff₀ (q10pow_pos dp)]
    exact Int.le_ceil _

theorem qTrunc_nonpos (dp : ℕ) (x : ℚ) (hx : x ≤ 0) : qTrunc dp x ≤ 0 := by
  rcases eq_or_lt_of_le hx with h | h
  · rw [h]
    simp [qTrunc, qtruncZ]
  · rw [qTrunc, qtruncZ, if_neg (by nlinarith [q10pow_pos dp])]
    apply div_nonpos_of_nonpos_of_nonneg _ (q10pow_pos dp).le
    have hc : ⌈x * 10 ^ dp⌉ ≤ (0 : ℤ) :=
      Int.ceil_le.mpr (by push_cast; nlinarith [q10pow_pos dp])
    exact_mod_cast hc

theorem qFloorAt_le (dp : ℕ) (x : ℚ) : qFloorAt dp x ≤ x := by
  rw [qFloorAt, div_le_iff₀ (q10pow_pos dp)]
  exact Int.floor_le _

theorem lt_qFloorAt_add (dp : ℕ) (x : ℚ) : x < qFloorAt dp x + (10 ^ dp)⁻¹ := by
  rw [qFloorAt]
  have h := Int.lt_floor_add_one (x * 10 ^ dp)
  rw [div_add' _ _ _ (q10pow_ne dp), inv_mul_cancel₀ (q10pow_ne dp)]
  rw [lt_div_iff₀ (q10pow_pos dp)]
  linarith

theorem qFloorAt_nonneg (dp : ℕ) (x : ℚ) (hx : 0 ≤ x) : 0 ≤ qFloorAt dp x := by
  rw [qFloorAt]
  apply div_nonneg _ (q10pow_pos dp).le
  exact_mod_cast Int.floor_nonneg.mpr (by positivity)

theorem qSqrt9_nonneg (x : ℚ) : 0 ≤ qSqrt9 x := by
  rw [qSqrt9]
  split
  · rfl
  · positivity

theorem floorNat_le (x : ℚ) (hx : 0 ≤ x) : ((⌊x⌋.toNat : ℕ) : ℚ) ≤ x := by
  have h3 : (⌊x⌋.toNat : ℤ) = ⌊x⌋ := Int.toNat_of_nonneg (Int.floor_nonneg.mpr hx)
  have h4 : ((⌊x⌋.toNat : ℕ) : ℚ) = ((⌊x⌋ : ℤ) : ℚ) := by exact_mod_cast congrArg Int.cast h3
  rw [h4]
  exact Int.floor_le _

theorem lt_floorNat_add (x : ℚ) (hx : 0 ≤ x) : x < ((⌊x⌋.toNat : ℕ) : ℚ) + 1 := by
  have h3 : (⌊x⌋.toNat : ℤ) = ⌊x⌋ := Int.toNat_of_nonneg (Int.floor_nonneg.mpr hx)
  have h4 : ((⌊x⌋.toNat : ℕ) : ℚ) = ((⌊x⌋ : ℤ) : ℚ) := by exact_mod_cast congrArg Int.cast h3
  rw [h4]
  exact Int.lt_floor_add_one _

theorem qSqrt9_sq_le (x : ℚ) (hx : 0 ≤ x) : qSqrt9 x ^ 2 ≤ x := by
  rw [qSqrt9, if_neg (not_lt.mpr hx)]
  have h1 : (isqrt (⌊x * 10 ^ 18⌋).toNat) ^ 2 ≤ (⌊x * 10 ^ 18⌋).toNat := (isqrt_bounds _).1
  have h2 : ((⌊x * 10 ^ 18⌋.toNat : ℕ) : ℚ) ≤ x * 10 ^ 18 := floorNat_le _ (by positivity)
  have h4 : ((isqrt (⌊x * 10 ^ 18⌋).toNat : ℕ) : ℚ) ^ 2 ≤ ((⌊x * 10 ^ 18⌋.toNat : ℕ) : ℚ) := by
    exact_mod_cast h1
  rw [div_pow]
  rw [div_le_iff₀ (by positivity : (0:ℚ) < ((10 : ℚ) ^ 9) ^ 2)]
  have h5 : ((10:ℚ) ^ 9) ^ 2 = 10 ^ 18 := by norm_num
  rw [h5]
  linarith

theorem lt_qSqrt9_add_sq (x : ℚ) (hx : 0 ≤ x) : x < (qSqrt9 x + (10 ^ 9)⁻¹) ^ 2 := by
  rw [qSqrt9, if_neg (not_lt.mpr hx)]
  have h1 : (⌊x * 10 ^ 18⌋).toNat < (isqrt (⌊x * 10 ^ 18⌋).toNat + 1) ^ 2 := (isqrt_bounds _).2
  have h2 : x * 10 ^ 18 < ((⌊x * 10 ^ 18⌋.toNat : ℕ) : ℚ) + 1 := lt_floorNat_add _ (by positivity)
  have h3 : ((⌊x * 10 ^ 18⌋.toNat : ℕ) : ℚ) + 1 ≤
      (((isqrt (⌊x * 10 ^ 18⌋).toNat : ℕ) : ℚ) + 1) ^ 2 := by
    exact_mod_cast h1
  rw [inv_eq_one_div, div_add_div_same, div_pow]
  have h5 : ((10:ℚ) ^ 9) ^ 2 = 10 ^ 18 := by norm_num
  rw [h5, lt_div_iff₀ (by positivity : (0:ℚ) < (10 : ℚ) ^ 18)]
  linarith

theorem amgm2 (p a b s : ℚ) (hp : 0 < p) (ha : 0 ≤ a) (hb : 0 ≤ b) (_hs : 0 ≤ s)
    (h : p * s ^ 2 ≤ a * b) : 2 * (p * s) ≤ p * a + b := by
  have hpss : p * (p * s ^ 2) ≤ p * (a * b) := mul_le_mul_of_nonneg_left h hp.le
  have hsq : (0:ℚ) ≤ (p * a - b) ^ 2 := sq_nonneg _
  by_contra hc
  push_neg at hc
  have hY : 0 ≤ p * a + b := by positivity
  have key : (2 * (p * s)) ^ 2 ≤ (p * a + b) ^ 2 := by nlinarith [hpss, hsq]
  have hXY : 0 < 2 * (p * s) - (p * a + b) := by linarith
  have hXY2 : 0 < 2 * (p * s) + (p * a + b) := by linarith
  nlinarith [mul_pos hXY hXY2, key]

/- ### The JavaScript relational comparison of two BigNumber objects

`addOutstandingLiquidityToAMM` contains `if (totalUnused < totalOutstanding)`
on two BigNumber objects.  JavaScript converts both operands with `valueOf`,
which for BigNumber returns the decimal string, and then compares the two
strings lexicographically.  `jsStrLt` models that comparison: the sign cases
are exact (a string starting with a minus sign precedes any string starting
with a digit), and same-sign values are compared lexicographically on their
plain decimal notation.  (For magnitudes outside `[1e-7, 1e21)` bignumber.js
switches to exponential notation, which this rendering does not reproduce;
no theorem below depends on the same-sign branch.) -/

/-- Decimal digits of a natural number, most significant first (fuelled). -/
def natDigits : ℕ → ℕ → List ℕ
  | 0, _ => []
  | f + 1, n => if n = 0 then [] else natDigits f (n / 10) ++ [n % 10]

/-- Strip trailing zeros of the coefficient into the exponent. -/
def stripZeros : ℕ → ℕ → ℕ → ℕ × ℕ
  | 0, m, e => (m, e)
  | f + 1, m, e =>
    if e = 0 ∨ m % 10 ≠ 0 ∨ m = 0 then (m, e) else stripZeros f (m / 10) (e - 1)

/-- Character stream of the plain decimal notation of `m₀ / 10^e₀`, as
comparable tokens: a digit `d` is the token `d + 1` and the decimal point is
the token `0` (the character `.` sorts below all digits). -/
def renderTokens (m0 : ℤ) (e0 : ℕ) : List ℕ :=
  let p := stripZeros e0 m0.natAbs e0
  let m := p.1
  let e := p.2
  if m = 0 then [1]
  else
    let ds := natDigits m m
    if e = 0 then ds.map (· + 1)
    else if e < ds.length then
      (ds.take (ds.length - e)).map (· + 1) ++ [0] ++ (ds.drop (ds.length - e)).map (· + 1)
    else [1, 0] ++ List.replicate (e - ds.length) 1 ++ ds.map (· + 1)

/-- Lexicographic order on token streams (a proper prefix sorts first). -/
def lexLt : List ℕ → List ℕ → Bool
  | [], [] => false
  | [], _ :: _ => true
  | _ :: _, [] => false
  | a :: as, b :: bs => if a < b then true else if b < a then false else lexLt as bs

/-- The JavaScript `<` on two BigNumber objects (lexicographic comparison of
their decimal strings). -/
def jsStrLt (a b : D) : Bool :=
  if 0 ≤ a.m ∧ b.m ≤ 0 then false
  else if a.m < 0 ∧ 0 ≤ b.m then true
  else lexLt (renderTokens a.m a.e) (renderTokens b.m b.e)

theorem jsStrLt_of_signs (a b : D) (ha : 0 ≤ toQ a) (hb : toQ b ≤ 0) :
    jsStrLt a b = false := by
  rw [jsStrLt, if_pos]
  constructor
  · exact (toQ_nonneg_iff a).mp ha
  · by_contra hc
    push_neg at hc
    have hpos : 0 < toQ b := div_pos (by exact_mod_cast hc) (q10pow_pos b.e)
    linarith

/- ### The simulator state

One record flattens the object graph of `simulation.ts`: the shared
`PriceProvider`, the `AMMPosition`, the `LendingPosition` and the `Strategy`
fields, keeping the source field names. -/

structure Strategy where
  currentPrice : D
  idealRatio : D
  swapFee : D
  interestPeriod : D
  lastRebalancePrice : D
  unusedTON : D
  unusedUSDT : D
  initialReserveX : D
  initialReserveY : D
  ammSupplyInterest : D
  collateral : D
  debt : D
  liquidationThreshold : D
  borrowingInterest : D
  supplyInterest : D
  totalRebalances : ℕ
deriving DecidableEq

/-- The errors thrown by the simulator (all fatal). -/
inductive SimError where
  | liquidated (debtValue boundary : D)
  | ammPriceMismatch (implied oracle : D)
  | nanDivision
  | inconsistency (valueBefore valueAfter : D)
deriving DecidableEq

/-- Is the error the final internal-inconsistency error of `rebalance`? -/
def SimError.isIncons : SimError → Bool
  | .inconsistency _ _ => true
  | _ => false

def MINUTES_IN_YEAR : D := ⟨525600, 0⟩

/-- `PriceProvider.setPrice` (source line 14): stores unconditionally. -/
def setPrice (newPrice : D) (s : Strategy) : Strategy := { s with currentPrice := newPrice }

/-- `AMMPosition.getReservesForCurrentPrice().reserveX` (source lines 28-39):
`sqrt(k / price)` for the anchor product `k`. -/
def reserveXCur (s : Strategy) : D :=
  dSqrt9 (dDiv9 (dMul s.initialReserveX s.initialReserveY) s.currentPrice)

/-- `AMMPosition.getReservesForCurrentPrice().reserveY`: `price * reserveX`. -/
def reserveYCur (s : Strategy) : D := dMul s.currentPrice (reserveXCur s)

/-- `AMMPosition.estimatePositionValueInY` (source lines 41-46). -/
def estimatePositionValueInY (s : Strategy) : D :=
  dAdd (dMul (reserveXCur s) s.currentPrice) (reserveYCur s)

/-- `AMMPosition.generateYield` (source lines 48-53). -/
def generateYield (period : D) (s : Strategy) : D :=
  dDiv9 (dMul (dMul (estimatePositionValueInY s) s.ammSupplyInterest) period) MINUTES_IN_YEAR

/-- `LendingPosition.getDebtValue` (source line 67). -/
def getDebtValue (s : Strategy) : D := dMul s.debt s.currentPrice

/-- `LendingPosition.estimatePositionValue` (source line 71). -/
def estimatePositionValue (s : Strategy) : D := dSub s.collateral (getDebtValue s)

/-- `LendingPosition.isLiquidatable` (source line 75):
`debtValue > collateral / liquidationThreshold`. -/
def isLiquidatable (s : Strategy) : Bool :=
  dLt (dDiv9 s.collateral s.liquidationThreshold) (getDebtValue s)

/-- `LendingPosition.accrueInterest` (source lines 87-111): multiplies debt
and collateral by their growth factors, rounds down (9 and 6 decimal places),
then throws if the position became liquidatable; the error carries the debt
value and the boundary `collateral / liquidationThreshold`. -/
def accrueInterest (period : D) (s : Strategy) : Strategy × Option SimError :=
  let s' := { s with
    debt := dFloorAt 9 (dMul s.debt
      (dAdd (dInt 1) (dDiv9 (dMul s.borrowingInterest period) MINUTES_IN_YEAR))),
    collateral := dFloorAt 6 (dMul s.collateral
      (dAdd (dInt 1) (dDiv9 (dMul s.supplyInterest period) MINUTES_IN_YEAR))) }
  if isLiquidatable s' then
    (s', some (.liquidated (getDebtValue s') (dDiv9 s'.collateral s'.liquidationThreshold)))
  else (s', none)

/-- `Strategy.estimateUnusedFundsValue` (source lines 377-381). -/
def estimateUnusedFundsValue (s : Strategy) : D :=
  dAdd (dMul s.unusedTON s.currentPrice) s.unusedUSDT

/-- `Strategy.estimateTotalStrategyValue` (source lines 383-388). -/
def estimateTotalStrategyValue (s : Strategy) : D :=
  dAdd (dAdd (estimatePositionValue s) (estimatePositionValueInY s)) (estimateUnusedFundsValue s)

/-- `computeIdealSetupForCurrentPrice().idealAmmReserveY` (source line 392). -/
def idealAmmReserveY (s : Strategy) : D := dMul (estimateTotalStrategyValue s) s.idealRatio

/-- `computeIdealSetupForCurrentPrice().idealLendingCollateral` (line 393). -/
def idealLendingCollateral (s : Strategy) : D :=
  dSub (estimateTotalStrategyValue s) (idealAmmReserveY s)

/-- `computeIdealSetupForCurrentPrice().idealAmountToBorrow` (line 394). -/
def idealAmountToBorrow (s : Strategy) : D := dDiv9 (idealAmmReserveY s) s.currentPrice

/-- `computeDeviationFromIdealSetup().deviationAmmReserveY` (line 415). -/
def deviationAmmReserveY (s : Strategy) : D := dSub (reserveYCur s) (idealAmmReserveY s)

/-- `computeDeviationFromIdealSetup().deviationLendingCollateral` (line 416). -/
def deviationLendingCollateral (s : Strategy) : D :=
  dSub s.collateral (idealLendingCollateral s)

/-- `computeDeviationFromIdealSetup().deviationAmountToBorrow` (line 419). -/
def deviationAmountToBorrow (s : Strategy) : D := dSub s.debt (idealAmountToBorrow s)

/-- `Strategy.coverAmountWithUSDT` (source lines 210-234); returns the covered
amount and the updated state. -/
def coverAmountWithUSDT (amount : D) (s : Strategy) : D × Strategy :=
  let covered := dMin s.unusedUSDT amount
  let leftUsdtToCover := dSub amount covered
  let s1 := { s with unusedUSDT := dSub s.unusedUSDT covered }
  let fee1 := dSub (dInt 1) s.swapFee
  let tonToSwap := dMin s1.unusedTON (dDiv9 (dDiv9 leftUsdtToCover s.currentPrice) fee1)
  let s2 := { s1 with unusedTON := dSub s1.unusedTON tonToSwap }
  (dAdd covered (dMul (dMul tonToSwap fee1) s.currentPrice), s2)

/-- `Strategy.coverAmountWithTON` (source lines 236-257). -/
def coverAmountWithTON (amount : D) (s : Strategy) : D × Strategy :=
  let covered := dMin s.unusedTON amount
  let leftTonToCover := dSub amount covered
  let s1 := { s with unusedTON := dSub s.unusedTON covered }
  let fee1 := dSub (dInt 1) s.swapFee
  let usdtToSwap := dMin s1.unusedUSDT (dDiv9 (dMul leftTonToCover s.currentPrice) fee1)
  let s2 := { s1 with unusedUSDT := dSub s1.unusedUSDT usdtToSwap }
  (dAdd covered (dDiv9 (dMul usdtToSwap fee1) s.currentPrice), s2)

/-- `Strategy.coverOutstandingCollateral` (source lines 259-271). -/
def coverOutstandingCollateral (s : Strategy) : Strategy :=
  if dLt (deviationLendingCollateral s) (dInt 0) then
    let p := coverAmountWithUSDT (dAbs (deviationLendingCollateral s)) s
    { p.2 with collateral := dAdd p.2.collateral p.1 }
  else s

/-- `Strategy.coverOutstandingBorrowedAmount` (source lines 273-284). -/
def coverOutstandingBorrowedAmount (s : Strategy) : Strategy :=
  if dLt (dInt 0) (deviationAmountToBorrow s) then
    let p := coverAmountWithTON (dAbs (deviationAmountToBorrow s)) s
    { p.2 with debt := dSub p.2.debt p.1 }
  else s

/-- `Strategy.withdrawExcessesFromAMM` (source lines 331-351).  When the
current `reserveY` is zero and the deviation is positive, the source divides
by zero (`idealReserveX` becomes `NaN`, silently poisoning the state); the
theorems below exclude that case through their solvency hypotheses, under
which a positive deviation forces `reserveY > 0`. -/
def withdrawExcessesFromAMM (s : Strategy) : Strategy :=
  if dLt (dInt 0) (deviationAmmReserveY s) then
    let rX := reserveXCur s
    let rY := reserveYCur s
    let idealRY := dSub rY (deviationAmmReserveY s)
    let idealRX := dDiv9 (dMul rX idealRY) rY
    { s with initialReserveX := idealRX, initialReserveY := idealRY,
             unusedTON := dAdd s.unusedTON (dSub rX idealRX),
             unusedUSDT := dAdd s.unusedUSDT (dSub rY idealRY) }
  else s

/-- `Strategy.withdrawExcessesFromLendingCollateral` (source lines 353-364). -/
def withdrawExcessesFromLendingCollateral (s : Strategy) : Strategy :=
  if dLt (dInt 0) (deviationLendingCollateral s) then
    { s with collateral := dSub s.collateral (deviationLendingCollateral s),
             unusedUSDT := dAdd s.unusedUSDT (deviationLendingCollateral s) }
  else s

/-- `Strategy.borrowUntilIdealSetup` (source lines 366-375). -/
def borrowUntilIdealSetup (s : Strategy) : Strategy :=
  if dLt (deviationAmountToBorrow s) (dInt 0) then
    let toBorrow := dAbs (deviationAmountToBorrow s)
    { s with debt := dAdd s.debt toBorrow, unusedTON := dAdd s.unusedTON toBorrow }
  else s

/-- `Strategy.addOutstandingLiquidityToAMM` (source lines 286-329).
With `reserveY = 0` and a negative deviation the guard `dY/0 < -0.05` holds
(`-Infinity`), and the swap amounts become `NaN`, so `areValuesClose` is false
and the step throws: modelled by the `nanDivision` error.  A zero `availableX`
makes the implied price non-finite, which also fails `areValuesClose`. -/
def addLiquidityFinish (s : Strategy) (rX rY outX outY : D) : Strategy × Option SimError :=
  let p1 := coverAmountWithTON outX s
  let p2 := coverAmountWithUSDT outY p1.2
  let availableX := p1.1
  let availableY := p2.1
  if availableX.m = 0 then
    (p2.2, some (.ammPriceMismatch (dDiv9 availableY availableX) s.currentPrice))
  else
    if dLt (dAbs (dSub (dDiv9 availableY availableX) s.currentPrice)) ⟨1, 3⟩ then
      ({ p2.2 with initialReserveX := dAdd rX availableX,
                   initialReserveY := dAdd rY availableY }, none)
    else (p2.2, some (.ammPriceMismatch (dDiv9 availableY availableX) s.currentPrice))

/-- `Strategy.addOutstandingLiquidityToAMM` (source lines 286-329), continued:
the branch selection and the proportional capping, with the covering, checking
and anchor write delegated to `addLiquidityFinish`. -/
def addOutstandingLiquidityToAMM (s : Strategy) : Strategy × Option SimError :=
  let rY := reserveYCur s
  let dY := deviationAmmReserveY s
  if rY.m = 0 then
    if dLt dY (dInt 0) then (s, some .nanDivision) else (s, none)
  else
    if dLt (dDiv9 dY rY) ⟨-5, 2⟩ then
      let rX := reserveXCur s
      let idealRY := dSub rY dY
      let idealRX := dDiv9 (dMul rX idealRY) rY
      let outX0 := dSub idealRX rX
      let outY0 := dSub idealRY rY
      let totalUnused := dMul (estimateUnusedFundsValue s) (dSub (dInt 1) s.swapFee)
      let totalOutstanding := dAdd (dMul outX0 s.currentPrice) outY0
      if jsStrLt totalUnused totalOutstanding then
        let ratio := dDiv9 totalUnused totalOutstanding
        addLiquidityFinish s rX rY (dMul outX0 ratio) (dMul outY0 ratio)
      else
        addLiquidityFinish s rX rY outX0 outY0
    else (s, none)

/-- The six rebalance steps in source order (lines 192-197). -/
def runSteps (s : Strategy) : Strategy × Option SimError :=
  addOutstandingLiquidityToAMM
    (borrowUntilIdealSetup
      (coverOutstandingCollateral
        (coverOutstandingBorrowedAmount
          (withdrawExcessesFromLendingCollateral
            (withdrawExcessesFromAMM s)))))

/-- `Strategy.rebalance` (source lines 189-208): run the six steps, increment
`totalRebalances`, and throw if the total value grew by more than `0.00001`.
The returned state is the state at the point of the throw (JavaScript does not
roll back the mutations). -/
def rebalance (s : Strategy) : Strategy × Option SimError :=
  let valueBefore := estimateTotalStrategyValue s
  let r := runSteps s
  if r.2.isSome then r
  else
    let valueAfter := estimateTotalStrategyValue r.1
    let s7 := { r.1 with totalRebalances := r.1.totalRebalances + 1 }
    if dLt (dAdd valueBefore ⟨1, 5⟩) valueAfter then
      (s7, some (.inconsistency valueBefore valueAfter))
    else (s7, none)

/-- The trigger condition of `nextPrice` (source lines 178-183):
`|deviationAmmReserveY / reserveY| > 0.1`.  With `reserveY = 0` the quotient
is `±Infinity` (triggering) unless the deviation is also zero (`NaN`, not
triggering). -/
def rebalanceTriggered (s : Strategy) : Bool :=
  let rY := reserveYCur s
  let dY := deviationAmmReserveY s
  if rY.m = 0 then !(dY.m == 0)
  else dLt ⟨1, 1⟩ (dAbs (dDiv9 dY rY))

/-- `Strategy.nextPrice` (source lines 170-187). -/
def nextPrice (newPrice : D) (s : Strategy) : Strategy × Option SimError :=
  let s1 := setPrice newPrice s
  let r2 := accrueInterest s1.interestPeriod s1
  if r2.2.isSome then r2
  else
    let s3 := { r2.1 with
      unusedUSDT := dAdd (r2.1).unusedUSDT (generateYield (r2.1).interestPeriod r2.1) }
    if rebalanceTriggered s3 then
      let r4 := rebalance s3
      if r4.2.isSome then r4
      else ({ r4.1 with lastRebalancePrice := (r4.1).currentPrice }, none)
    else (s3, none)

/-- The `Strategy` constructor (source lines 129-168). -/
def mkStrategy (usdtToInvest ratio ammSupplyInterest borrowInterest supplyInterest
    liquidationThreshold initialPrice swapFee interestPeriod : D) : Strategy :=
  let ammReserveY := dMul usdtToInvest ratio
  let lendingCollateral := dSub usdtToInvest ammReserveY
  let amountToBorrow := dDiv9 ammReserveY initialPrice
  { currentPrice := initialPrice
    idealRatio := ratio
    swapFee := swapFee
    interestPeriod := interestPeriod
    lastRebalancePrice := initialPrice
    unusedTON := dInt 0
    unusedUSDT := dInt 0
    initialReserveX := amountToBorrow
    initialReserveY := ammReserveY
    ammSupplyInterest := ammSupplyInterest
    collateral := lendingCollateral
    debt := amountToBorrow
    liquidationThreshold := liquidationThreshold
    borrowingInterest := borrowInterest
    supplyInterest := supplyInterest
    totalRebalances := 0 }

/- ### Small helpers for discharging hypotheses at concrete states -/

theorem toQ_pos_iff (a : D) : 0 < toQ a ↔ 0 < a.m := by
  constructor
  · intro h
    by_contra hc
    push_neg at hc
    have h2 : toQ a ≤ 0 := by
      rw [toQ]
      apply div_nonpos_of_nonpos_of_nonneg _ (q10pow_pos a.e).le
      exact_mod_cast hc
    linarith
  · intro h
    exact div_pos (by exact_mod_cast h) (q10pow_pos a.e)

theorem qTrunc_intCast (dp : ℕ) (n : ℤ) : qTrunc dp ((n : ℚ)) = (n : ℚ) := by
  have h1 : ((n : ℚ)) * 10 ^ dp = ((n * 10 ^ dp : ℤ) : ℚ) := by push_cast; ring
  rw [qTrunc, qtruncZ, h1]
  rcases le_or_lt 0 (n * 10 ^ dp) with h | h
  · rw [if_pos (by exact_mod_cast h), Int.floor_intCast]
    rw [div_eq_iff (q10pow_ne dp)]
    push_cast
    ring
  · rw [if_neg (by push_neg; exact_mod_cast h), Int.ceil_intCast]
    rw [div_eq_iff (q10pow_ne dp)]
    push_cast
    ring

/- ### Claim C8: the constructor split -/

/-- C8: the constructor splits the invested capital as
`ammReserveY = capital * ratio`, `collateral = capital - ammReserveY`,
`borrow = ammReserveY / initialPrice` (the 9-decimal-place division of the
source), seeds the AMM anchor with `(borrow, ammReserveY)`, and on the
scenario capital = 1,000,000, ratio = 0.33, price = 2.00 this gives
collateral 670,000, AMM reserveY 330,000, borrow 165,000 and reserveX
165,000. -/
theorem mkStrategy_spec (usdt ratio aSI bI sI L p0 fee per : D)
    (hp : 0 < toQ p0) :
    toQ (mkStrategy usdt ratio aSI bI sI L p0 fee per).initialReserveY
        = toQ usdt * toQ ratio ∧
    toQ (mkStrategy usdt ratio aSI bI sI L p0 fee per).collateral
        = toQ usdt - toQ usdt * toQ ratio ∧
    toQ (mkStrategy usdt ratio aSI bI sI L p0 fee per).debt
        = qTrunc 9 (toQ usdt * toQ ratio / toQ p0) ∧
    (mkStrategy usdt ratio aSI bI sI L p0 fee per).initialReserveX
        = (mkStrategy usdt ratio aSI bI sI L p0 fee per).debt ∧
    (usdt = ⟨1000000, 0⟩ → ratio = ⟨33, 2⟩ → p0 = ⟨2, 0⟩ →
      toQ (mkStrategy usdt ratio aSI bI sI L p0 fee per).collateral = 670000 ∧
      toQ (mkStrategy usdt ratio aSI bI sI L p0 fee per).initialReserveY = 330000 ∧
      toQ (mkStrategy usdt ratio aSI bI sI L p0 fee per).debt = 165000 ∧
      toQ (mkStrategy usdt ratio aSI bI sI L p0 fee per).initialReserveX = 165000) := by
  have hY : toQ (mkStrategy usdt ratio aSI bI sI L p0 fee per).initialReserveY
      = toQ usdt * toQ ratio := by
    rw [mkStrategy]
    exact toQ_dMul usdt ratio
  have hC : toQ (mkStrategy usdt ratio aSI bI sI L p0 fee per).collateral
      = toQ usdt - toQ usdt * toQ ratio := by
    rw [mkStrategy]
    rw [toQ_dSub, toQ_dMul]
  have hD : toQ (mkStrategy usdt ratio aSI bI sI L p0 fee per).debt
      = qTrunc 9 (toQ usdt * toQ ratio / toQ p0) := by
    rw [mkStrategy]
    rw [toQ_dDiv9, toQ_dMul, if_neg hp.ne']
  refine ⟨hY, hC, hD, rfl, ?_⟩
  intro h1 h2 h3
  subst h1; subst h2; subst h3
  have e1 : toQ (⟨1000000, 0⟩ : D) = 1000000 := by norm_num [toQ]
  have e2 : toQ (⟨33, 2⟩ : D) = 33 / 100 := by norm_num [toQ]
  have e3 : toQ (⟨2, 0⟩ : D) = 2 := by norm_num [toQ]
  have e4 : qTrunc 9 ((1000000 : ℚ) * (33 / 100) / 2) = 165000 := by
    have h5 := qTrunc_intCast 9 165000
    have h6 : ((1000000 : ℚ) * (33 / 100) / 2) = ((165000 : ℤ) : ℚ) := by norm_num
    rw [h6, h5]
    norm_num
  constructor
  · rw [hC, e1, e2]; norm_num
  constructor
  · rw [hY, e1, e2]; norm_num
  constructor
  · rw [hD, e1, e2, e3, e4]
  · have h7 : (mkStrategy ⟨1000000, 0⟩ ⟨33, 2⟩ aSI bI sI L ⟨2, 0⟩ fee per).initialReserveX
        = (mkStrategy ⟨1000000, 0⟩ ⟨33, 2⟩ aSI bI sI L ⟨2, 0⟩ fee per).debt := rfl
    rw [h7, hD, e1, e2, e3, e4]

/-- Witness for C8 at the constants of `index.ts`. -/
theorem mkStrategy_spec_witness :
    0 < toQ (⟨2, 0⟩ : D) ∧
    toQ (mkStrategy ⟨1000000, 0⟩ ⟨33, 2⟩ ⟨2, 1⟩ ⟨2, 2⟩ ⟨8, 2⟩ ⟨125, 2⟩ ⟨2, 0⟩ ⟨1, 2⟩
        ⟨5, 0⟩).collateral = 670000 := by
  have hp : 0 < toQ (⟨2, 0⟩ : D) := by
    rw [toQ_pos_iff]
    decide
  have h := mkStrategy_spec ⟨1000000, 0⟩ ⟨33, 2⟩ ⟨2, 1⟩ ⟨2, 2⟩ ⟨8, 2⟩ ⟨125, 2⟩ ⟨2, 0⟩ ⟨1, 2⟩
    ⟨5, 0⟩ hp
  exact ⟨hp, (h.2.2.2.2 rfl rfl rfl).1⟩

/- ### Claim C2: the constant-product derivation of the reserves -/

/-- C2: for positive anchor reserves and a positive price, the derived
reserves satisfy `reserveY = price * reserveX` exactly, the position value is
`reserveX * price + reserveY` exactly, and the product `reserveX * reserveY`
equals the anchor product `k` within the tolerance of the 9-decimal-place
square root and division: it never exceeds `k`, and `k` is below the product
recomputed with each rounding pushed up by one unit in the last place. -/
theorem amm_reserves_spec (s : Strategy)
    (hx : 0 < toQ s.initialReserveX) (hy : 0 < toQ s.initialReserveY)
    (hp : 0 < toQ s.currentPrice) :
    toQ (reserveYCur s) = toQ s.currentPrice * toQ (reserveXCur s) ∧
    toQ (estimatePositionValueInY s)
        = toQ (reserveXCur s) * toQ s.currentPrice + toQ (reserveYCur s) ∧
    toQ (reserveXCur s) * toQ (reserveYCur s)
        ≤ toQ s.initialReserveX * toQ s.initialReserveY ∧
    toQ s.initialReserveX * toQ s.initialReserveY
        < toQ s.currentPrice * (toQ (reserveXCur s) + (10 ^ 9)⁻¹) ^ 2
          + toQ s.currentPrice * (10 ^ 9)⁻¹ := by
  have hYX : toQ (reserveYCur s) = toQ s.currentPrice * toQ (reserveXCur s) :=
    toQ_dMul _ _
  have hV : toQ (estimatePositionValueInY s)
      = toQ (reserveXCur s) * toQ s.currentPrice + toQ (reserveYCur s) := by
    rw [estimatePositionValueInY, toQ_dAdd, toQ_dMul]
  set k := toQ s.initialReserveX * toQ s.initialReserveY with hk
  have hkpos : 0 < k := mul_pos hx hy
  have hq : toQ (dDiv9 (dMul s.initialReserveX s.initialReserveY) s.currentPrice)
      = qTrunc 9 (k / toQ s.currentPrice) := by
    rw [toQ_dDiv9, toQ_dMul, if_neg hp.ne']
  set q := qTrunc 9 (k / toQ s.currentPrice) with hqdef
  have hqn : 0 ≤ k / toQ s.currentPrice := le_of_lt (div_pos hkpos hp)
  have hq1 : q ≤ k / toQ s.currentPrice := qTrunc_le 9 _ hqn
  have hq2 : k / toQ s.currentPrice < q + (10 ^ 9)⁻¹ := lt_qTrunc_add 9 _ hqn
  have hq0 : 0 ≤ q := qTrunc_nonneg 9 _ hqn
  have hXval : toQ (reserveXCur s) = qSqrt9 q := by
    rw [reserveXCur, toQ_dSqrt9, hq]
  have hs0 : 0 ≤ toQ (reserveXCur s) := hXval ▸ qSqrt9_nonneg q
  have hs1 : toQ (reserveXCur s) ^ 2 ≤ q := hXval ▸ qSqrt9_sq_le q hq0
  have hs2 : q < (toQ (reserveXCur s) + (10 ^ 9)⁻¹) ^ 2 := hXval ▸ lt_qSqrt9_add_sq q hq0
  refine ⟨hYX, hV, ?_, ?_⟩
  · rw [hYX]
    have h3 : toQ s.currentPrice * (toQ (reserveXCur s) ^ 2) ≤ toQ s.currentPrice * q :=
      mul_le_mul_of_nonneg_left hs1 hp.le
    have h4 : toQ s.currentPrice * q ≤ k := by
      have := mul_le_mul_of_nonneg_left hq1 hp.le
      rw [mul_div_cancel₀ _ hp.ne'] at this
      exact this
    nlinarith
  · have h5 : k < toQ s.currentPrice * (q + (10 ^ 9)⁻¹) := by
      have := mul_lt_mul_of_pos_left hq2 hp
      rw [mul_div_cancel₀ _ hp.ne'] at this
      exact this
    have h6 : toQ s.currentPrice * q < toQ s.currentPrice * (toQ (reserveXCur s) + (10 ^ 9)⁻¹) ^ 2 :=
      mul_lt_mul_of_pos_left hs2 hp
    nlinarith

/-- Witness for C2 at the freshly constructed strategy of `index.ts`. -/
theorem amm_reserves_spec_witness :
    (0 < toQ (mkStrategy ⟨1000000, 0⟩ ⟨33, 2⟩ ⟨2, 1⟩ ⟨2, 2⟩ ⟨8, 2⟩ ⟨125, 2⟩ ⟨2, 0⟩ ⟨1, 2⟩
        ⟨5, 0⟩).initialReserveX) ∧
    toQ (reserveYCur (mkStrategy ⟨1000000, 0⟩ ⟨33, 2⟩ ⟨2, 1⟩ ⟨2, 2⟩ ⟨8, 2⟩ ⟨125, 2⟩ ⟨2, 0⟩
        ⟨1, 2⟩ ⟨5, 0⟩))
      = toQ (mkStrategy ⟨1000000, 0⟩ ⟨33, 2⟩ ⟨2, 1⟩ ⟨2, 2⟩ ⟨8, 2⟩ ⟨125, 2⟩ ⟨2, 0⟩ ⟨1, 2⟩
        ⟨5, 0⟩).currentPrice
        * toQ (reserveXCur (mkStrategy ⟨1000000, 0⟩ ⟨33, 2⟩ ⟨2, 1⟩ ⟨2, 2⟩ ⟨8, 2⟩ ⟨125, 2⟩
          ⟨2, 0⟩ ⟨1, 2⟩ ⟨5, 0⟩)) := by
  have hx : 0 < toQ (mkStrategy ⟨1000000, 0⟩ ⟨33, 2⟩ ⟨2, 1⟩ ⟨2, 2⟩ ⟨8, 2⟩ ⟨125, 2⟩ ⟨2, 0⟩
      ⟨1, 2⟩ ⟨5, 0⟩).initialReserveX := by
    rw [toQ_pos_iff]
    decide
  have hy : 0 < toQ (mkStrategy ⟨1000000, 0⟩ ⟨33, 2⟩ ⟨2, 1⟩ ⟨2, 2⟩ ⟨8, 2⟩ ⟨125, 2⟩ ⟨2, 0⟩
      ⟨1, 2⟩ ⟨5, 0⟩).initialReserveY := by
    rw [toQ_pos_iff]
    decide
  have hp : 0 < toQ (mkStrategy ⟨1000000, 0⟩ ⟨33, 2⟩ ⟨2, 1⟩ ⟨2, 2⟩ ⟨8, 2⟩ ⟨125, 2⟩ ⟨2, 0⟩
      ⟨1, 2⟩ ⟨5, 0⟩).currentPrice := by
    rw [toQ_pos_iff]
    decide
  exact ⟨hx, (amm_reserves_spec _ hx hy hp).1⟩

/- ### Claim C3: interest accrual and the insolvency error -/

theorem accrue_state (period : D) (s : Strategy) :
    (accrueInterest period s).1 = { s with
      debt := dFloorAt 9 (dMul s.debt
        (dAdd (dInt 1) (dDiv9 (dMul s.borrowingInterest period) MINUTES_IN_YEAR))),
      collateral := dFloorAt 6 (dMul s.collateral
        (dAdd (dInt 1) (dDiv9 (dMul s.supplyInterest period) MINUTES_IN_YEAR))) } := by
  rw [accrueInterest]
  split
  · rfl
  · rfl

theorem toQ_MINUTES : toQ MINUTES_IN_YEAR = 525600 := by norm_num [MINUTES_IN_YEAR, toQ]

/-- C3: `accrueInterest` multiplies the debt by
`1 + borrowInterestRate * periodMinutes / minutesPerYear` and rounds the
result down (toward minus infinity) at 9 decimal places, multiplies the
collateral by `1 + supplyInterestRate * periodMinutes / minutesPerYear`
rounded down at 6 decimal places (the inner divisions being the source's
9-decimal-place round-down divisions), and raises the unrecoverable
insolvency error precisely when, after this growth,
`debt * currentPrice > collateral / liquidationThreshold`; the error carries
the debt value and that liquidation boundary. -/
theorem accrueInterest_spec (period : D) (s : Strategy)
    (hL : 0 < toQ s.liquidationThreshold) :
    toQ ((accrueInterest period s).1).debt
      = qFloorAt 9 (toQ s.debt
          * (1 + qTrunc 9 (toQ s.borrowingInterest * toQ period / 525600))) ∧
    toQ ((accrueInterest period s).1).collateral
      = qFloorAt 6 (toQ s.collateral
          * (1 + qTrunc 9 (toQ s.supplyInterest * toQ period / 525600))) ∧
    (((accrueInterest period s).2).isSome ↔
      qTrunc 9 (toQ ((accrueInterest period s).1).collateral / toQ s.liquidationThreshold)
        < toQ ((accrueInterest period s).1).debt * toQ s.currentPrice) ∧
    (((accrueInterest period s).2).isSome →
      (accrueInterest period s).2
        = some (.liquidated
            (dMul ((accrueInterest period s).1).debt s.currentPrice)
            (dDiv9 ((accrueInterest period s).1).collateral s.liquidationThreshold))) := by
  have hstate := accrue_state period s
  have hdebt : toQ ((accrueInterest period s).1).debt
      = qFloorAt 9 (toQ s.debt
          * (1 + qTrunc 9 (toQ s.borrowingInterest * toQ period / 525600))) := by
    rw [hstate]
    show toQ (dFloorAt 9 _) = _
    rw [toQ_dFloorAt, toQ_dMul, toQ_dAdd, toQ_dInt, toQ_dDiv9, toQ_dMul, toQ_MINUTES]
    rw [if_neg (by norm_num)]
    norm_num
  have hcoll : toQ ((accrueInterest period s).1).collateral
      = qFloorAt 6 (toQ s.collateral
          * (1 + qTrunc 9 (toQ s.supplyInterest * toQ period / 525600))) := by
    rw [hstate]
    show toQ (dFloorAt 6 _) = _
    rw [toQ_dFloorAt, toQ_dMul, toQ_dAdd, toQ_dInt, toQ_dDiv9, toQ_dMul, toQ_MINUTES]
    rw [if_neg (by norm_num)]
    norm_num
  have hcp : ((accrueInterest period s).1).currentPrice = s.currentPrice := by
    rw [hstate]
  have hLth : ((accrueInterest period s).1).liquidationThreshold = s.liquidationThreshold := by
    rw [hstate]
  have herr : (accrueInterest period s).2
      = (if isLiquidatable ((accrueInterest period s).1) then
          some (SimError.liquidated (getDebtValue ((accrueInterest period s).1))
            (dDiv9 ((accrueInterest period s).1).collateral s.liquidationThreshold))
        else none) := by
    conv_rhs => rw [hstate]
    rw [accrueInterest]
    split
    · rename_i h
      simp [h, getDebtValue]
    · rename_i h
      simp [h]
  have hliq_iff : isLiquidatable ((accrueInterest period s).1) = true ↔
      qTrunc 9 (toQ ((accrueInterest period s).1).collateral / toQ s.liquidationThreshold)
        < toQ ((accrueInterest period s).1).debt * toQ s.currentPrice := by
    rw [isLiquidatable, dLt_true_iff, getDebtValue, toQ_dMul, hcp, hLth]
    rw [toQ_dDiv9, if_neg hL.ne']
  refine ⟨hdebt, hcoll, ?_, ?_⟩
  · rw [herr]
    by_cases hliq : isLiquidatable ((accrueInterest period s).1)
    · rw [if_pos hliq]
      simp only [Option.isSome_some, true_iff]
      exact hliq_iff.mp hliq
    · rw [if_neg hliq]
      simp only [Option.isSome_none, Bool.false_eq_true, false_iff, not_lt]
      have h2 : ¬ (qTrunc 9 (toQ ((accrueInterest period s).1).collateral
          / toQ s.liquidationThreshold)
            < toQ ((accrueInterest period s).1).debt * toQ s.currentPrice) := by
        intro hc
        exact hliq (hliq_iff.mpr hc)
      linarith [not_lt.mp h2]
  · intro hs
    rw [herr] at hs ⊢
    by_cases hliq : isLiquidatable ((accrueInterest period s).1)
    · rw [if_pos hliq]
      rw [getDebtValue, hcp]
    · rw [if_neg hliq] at hs
      exact absurd hs (by simp)

theorem dLt_eq_false_of_le (a b : D) (h : toQ b ≤ toQ a) : dLt a b = false :=
  (dLt_false_iff a b).mpr h

/-- An insolvent state with non-negative balances, a valid ratio, fee and
price: collateral 0, debt 1000 TON, price 1, anchor reserves 100/100. -/
def cexInsolvent : Strategy :=
  { currentPrice := ⟨1, 0⟩, idealRatio := ⟨33, 2⟩, swapFee := ⟨1, 2⟩,
    interestPeriod := ⟨5, 0⟩, lastRebalancePrice := ⟨1, 0⟩,
    unusedTON := ⟨0, 0⟩, unusedUSDT := ⟨0, 0⟩,
    initialReserveX := ⟨100, 0⟩, initialReserveY := ⟨100, 0⟩,
    ammSupplyInterest := ⟨2, 1⟩, collateral := ⟨0, 0⟩, debt := ⟨1000, 0⟩,
    liquidationThreshold := ⟨125, 2⟩, borrowingInterest := ⟨0, 0⟩,
    supplyInterest := ⟨0, 0⟩, totalRebalances := 0 }

/-- Witness for C3: at the insolvent state the accrual formulas hold and the
error fires exactly at the liquidation boundary comparison. -/
theorem accrueInterest_spec_witness :
    0 < toQ cexInsolvent.liquidationThreshold ∧
    toQ ((accrueInterest ⟨5, 0⟩ cexInsolvent).1).debt
      = qFloorAt 9 (toQ cexInsolvent.debt
          * (1 + qTrunc 9 (toQ cexInsolvent.borrowingInterest * toQ (⟨5, 0⟩ : D) / 525600))) ∧
    (((accrueInterest ⟨5, 0⟩ cexInsolvent).2).isSome ↔
      qTrunc 9 (toQ ((accrueInterest ⟨5, 0⟩ cexInsolvent).1).collateral
          / toQ cexInsolvent.liquidationThreshold)
        < toQ ((accrueInterest ⟨5, 0⟩ cexInsolvent).1).debt * toQ cexInsolvent.currentPrice) := by
  have hL : 0 < toQ cexInsolvent.liquidationThreshold := by
    rw [toQ_pos_iff]
    decide
  have h := accrueInterest_spec ⟨5, 0⟩ cexInsolvent hL
  exact ⟨hL, h.1, h.2.2.1⟩

/- ### Claim C6: is rebalance a no-op inside the trigger threshold? -/

/-- The strategy as constructed in `index.ts` with the first Binance price
replaced by 2.00 (the scenario price of the specification). -/
def S0c : Strategy :=
  mkStrategy ⟨1000000, 0⟩ ⟨33, 2⟩ ⟨2, 1⟩ ⟨2, 2⟩ ⟨8, 2⟩ ⟨125, 2⟩ ⟨2, 0⟩ ⟨1, 2⟩ ⟨5, 0⟩

/-- C6 counterexample: at the freshly constructed strategy the deviation
ratio is zero — far inside the 10% threshold — and every balance field is
unchanged by `rebalance`, yet `totalRebalances` grows from 0 to 1: the
claim's "totalRebalances is unchanged" is false on the code, which increments
the counter on every invocation. -/
theorem rebalance_noop_cex :
    toQ (dAbs (dDiv9 (deviationAmmReserveY S0c) (reserveYCur S0c))) ≤ 1 / 10 ∧
    0 < toQ S0c.idealRatio ∧ toQ S0c.idealRatio < 1 ∧
    0 ≤ toQ S0c.swapFee ∧ toQ S0c.swapFee < 1 ∧
    0 < toQ S0c.currentPrice ∧
    S0c.totalRebalances = 0 ∧
    (rebalance S0c).2 = none ∧
    (rebalance S0c).1.totalRebalances = 1 := by
  refine ⟨?_, ?_, ?_, ?_, ?_, ?_, by decide, by decide, by decide⟩
  · have h : dAbs (dDiv9 (deviationAmmReserveY S0c) (reserveYCur S0c)) = ⟨0, 9⟩ := by decide
    rw [h]
    norm_num [toQ]
  · rw [toQ_pos_iff]; decide
  · have h : dLt S0c.idealRatio (dInt 1) = true := by decide
    have h2 := (dLt_true_iff _ _).mp h
    rwa [toQ_dInt] at h2
  · rw [toQ_nonneg_iff]; decide
  · have h : dLt S0c.swapFee (dInt 1) = true := by decide
    have h2 := (dLt_true_iff _ _).mp h
    rwa [toQ_dInt] at h2
  · rw [toQ_pos_iff]; decide

/-- C6 (amended): when the state matches the ideal setup exactly (all three
deviations are zero, hence in particular inside the 10% trigger threshold),
the six rebalance steps leave every state field unchanged and the final value
check passes, but `totalRebalances` is still incremented by one — the source
increments the counter on every invocation of `rebalance`. -/
theorem rebalance_noop_spec (s : Strategy)
    (h1 : toQ (deviationAmmReserveY s) = 0)
    (h2 : toQ (deviationLendingCollateral s) = 0)
    (h3 : toQ (deviationAmountToBorrow s) = 0) :
    rebalance s = ({ s with totalRebalances := s.totalRebalances + 1 }, none) := by
  have g1 : dLt (dInt 0) (deviationAmmReserveY s) = false := by
    apply dLt_eq_false_of_le
    rw [toQ_dInt, h1]
    norm_num
  have g2 : dLt (dInt 0) (deviationLendingCollateral s) = false := by
    apply dLt_eq_false_of_le
    rw [toQ_dInt, h2]
    norm_num
  have g2' : dLt (deviationLendingCollateral s) (dInt 0) = false := by
    apply dLt_eq_false_of_le
    rw [toQ_dInt, h2]
    norm_num
  have g3 : dLt (dInt 0) (deviationAmountToBorrow s) = false := by
    apply dLt_eq_false_of_le
    rw [toQ_dInt, h3]
    norm_num
  have g3' : dLt (deviationAmountToBorrow s) (dInt 0) = false := by
    apply dLt_eq_false_of_le
    rw [toQ_dInt, h3]
    norm_num
  have s1 : withdrawExcessesFromAMM s = s := by
    rw [withdrawExcessesFromAMM, if_neg (by simp [g1])]
  have s2 : withdrawExcessesFromLendingCollateral s = s := by
    rw [withdrawExcessesFromLendingCollateral, if_neg (by simp [g2])]
  have s3 : coverOutstandingBorrowedAmount s = s := by
    rw [coverOutstandingBorrowedAmount, if_neg (by simp [g3])]
  have s4 : coverOutstandingCollateral s = s := by
    rw [coverOutstandingCollateral, if_neg (by simp [g2'])]
  have s5 : borrowUntilIdealSetup s = s := by
    rw [borrowUntilIdealSetup, if_neg (by simp [g3'])]
  have s6 : addOutstandingLiquidityToAMM s = (s, none) := by
    rw [addOutstandingLiquidityToAMM]
    by_cases hrY : (reserveYCur s).m = 0
    · rw [if_pos hrY]
      have gz : dLt (deviationAmmReserveY s) (dInt 0) = false := by
        apply dLt_eq_false_of_le
        rw [toQ_dInt, h1]
        norm_num
      rw [if_neg (by simp [gz])]
    · rw [if_neg hrY]
      have hdiv : toQ (dDiv9 (deviationAmmReserveY s) (reserveYCur s)) = 0 := by
        rw [toQ_dDiv9]
        split
        · rfl
        · rw [h1]
          have hz : qTrunc 9 ((0 : ℚ) / toQ (reserveYCur s)) = 0 := by
            rw [zero_div]
            have := qTrunc_intCast 9 0
            push_cast at this
            exact this
          exact hz
      have gz : dLt (dDiv9 (deviationAmmReserveY s) (reserveYCur s)) ⟨-5, 2⟩ = false := by
        apply dLt_eq_false_of_le
        rw [hdiv]
        norm_num [toQ]
      rw [if_neg (by simp [gz])]
  have hrun : runSteps s = (s, none) := by
    rw [runSteps, s1, s2, s3, s4, s5, s6]
  have hcheck : dLt (dAdd (estimateTotalStrategyValue s) ⟨1, 5⟩)
      (estimateTotalStrategyValue s) = false := by
    apply dLt_eq_false_of_le
    rw [toQ_dAdd]
    have : (0:ℚ) < toQ (⟨1, 5⟩ : D) := by norm_num [toQ]
    linarith
  rw [rebalance]
  rw [hrun]
  simp [hcheck]

/-- Witness for C6 (amended) at the freshly constructed strategy. -/
theorem rebalance_noop_spec_witness :
    toQ (deviationAmmReserveY S0c) = 0 ∧
    rebalance S0c = ({ S0c with totalRebalances := S0c.totalRebalances + 1 }, none) := by
  have h1 : toQ (deviationAmmReserveY S0c) = 0 := by
    rw [toQ_eq_zero_iff]
    decide
  have h2 : toQ (deviationLendingCollateral S0c) = 0 := by
    rw [toQ_eq_zero_iff]
    decide
  have h3 : toQ (deviationAmountToBorrow S0c) = 0 := by
    rw [toQ_eq_zero_iff]
    decide
  exact ⟨h1, rebalance_noop_spec S0c h1 h2 h3⟩

/- ### Frame lemmas: which fields each operation leaves untouched -/

theorem coverUSDT_frame (a : D) (s : Strategy) :
    ((coverAmountWithUSDT a s).2).currentPrice = s.currentPrice ∧
    ((coverAmountWithUSDT a s).2).idealRatio = s.idealRatio ∧
    ((coverAmountWithUSDT a s).2).swapFee = s.swapFee ∧
    ((coverAmountWithUSDT a s).2).interestPeriod = s.interestPeriod ∧
    ((coverAmountWithUSDT a s).2).lastRebalancePrice = s.lastRebalancePrice ∧
    ((coverAmountWithUSDT a s).2).liquidationThreshold = s.liquidationThreshold ∧
    ((coverAmountWithUSDT a s).2).borrowingInterest = s.borrowingInterest ∧
    ((coverAmountWithUSDT a s).2).supplyInterest = s.supplyInterest ∧
    ((coverAmountWithUSDT a s).2).ammSupplyInterest = s.ammSupplyInterest ∧
    ((coverAmountWithUSDT a s).2).totalRebalances = s.totalRebalances ∧
    ((coverAmountWithUSDT a s).2).collateral = s.collateral ∧
    ((coverAmountWithUSDT a s).2).debt = s.debt ∧
    ((coverAmountWithUSDT a s).2).initialReserveX = s.initialReserveX ∧
    ((coverAmountWithUSDT a s).2).initialReserveY = s.initialReserveY :=
  ⟨rfl, rfl, rfl, rfl, rfl, rfl, rfl, rfl, rfl, rfl, rfl, rfl, rfl, rfl⟩

theorem coverTON_frame (a : D) (s : Strategy) :
    ((coverAmountWithTON a s).2).currentPrice = s.currentPrice ∧
    ((coverAmountWithTON a s).2).idealRatio = s.idealRatio ∧
    ((coverAmountWithTON a s).2).swapFee = s.swapFee ∧
    ((coverAmountWithTON a s).2).interestPeriod = s.interestPeriod ∧
    ((coverAmountWithTON a s).2).lastRebalancePrice = s.lastRebalancePrice ∧
    ((coverAmountWithTON a s).2).liquidationThreshold = s.liquidationThreshold ∧
    ((coverAmountWithTON a s).2).borrowingInterest = s.borrowingInterest ∧
    ((coverAmountWithTON a s).2).supplyInterest = s.supplyInterest ∧
    ((coverAmountWithTON a s).2).ammSupplyInterest = s.ammSupplyInterest ∧
    ((coverAmountWithTON a s).2).totalRebalances = s.totalRebalances ∧
    ((coverAmountWithTON a s).2).collateral = s.collateral ∧
    ((coverAmountWithTON a s).2).debt = s.debt ∧
    ((coverAmountWithTON a s).2).initialReserveX = s.initialReserveX ∧
    ((coverAmountWithTON a s).2).initialReserveY = s.initialReserveY :=
  ⟨rfl, rfl, rfl, rfl, rfl, rfl, rfl, rfl, rfl, rfl, rfl, rfl, rfl, rfl⟩

/-- The nine configuration fields no rebalance step ever writes, plus the
rebalance counter (written only by `rebalance` itself). -/
def sameConfig (t s : Strategy) : Prop :=
  t.currentPrice = s.currentPrice ∧ t.idealRatio = s.idealRatio ∧ t.swapFee = s.swapFee ∧
  t.interestPeriod = s.interestPeriod ∧ t.lastRebalancePrice = s.lastRebalancePrice ∧
  t.liquidationThreshold = s.liquidationThreshold ∧
  t.borrowingInterest = s.borrowingInterest ∧ t.supplyInterest = s.supplyInterest ∧
  t.ammSupplyInterest = s.ammSupplyInterest ∧ t.totalRebalances = s.totalRebalances

theorem sameConfig_refl (s : Strategy) : sameConfig s s :=
  ⟨rfl, rfl, rfl, rfl, rfl, rfl, rfl, rfl, rfl, rfl⟩

theorem sameConfig_trans (u t s : Strategy) (h1 : sameConfig u t) (h2 : sameConfig t s) :
    sameConfig u s := by
  obtain ⟨a1, a2, a3, a4, a5, a6, a7, a8, a9, a10⟩ := h1
  obtain ⟨b1, b2, b3, b4, b5, b6, b7, b8, b9, b10⟩ := h2
  exact ⟨a1.trans b1, a2.trans b2, a3.trans b3, a4.trans b4, a5.trans b5, a6.trans b6,
    a7.trans b7, a8.trans b8, a9.trans b9, a10.trans b10⟩

theorem withdrawAMM_config (s : Strategy) : sameConfig (withdrawExcessesFromAMM s) s := by
  rw [withdrawExcessesFromAMM]
  split
  · exact ⟨rfl, rfl, rfl, rfl, rfl, rfl, rfl, rfl, rfl, rfl⟩
  · exact sameConfig_refl s

theorem withdrawColl_config (s : Strategy) :
    sameConfig (withdrawExcessesFromLendingCollateral s) s := by
  rw [withdrawExcessesFromLendingCollateral]
  split
  · exact ⟨rfl, rfl, rfl, rfl, rfl, rfl, rfl, rfl, rfl, rfl⟩
  · exact sameConfig_refl s

theorem coverBorrowed_config (s : Strategy) :
    sameConfig (coverOutstandingBorrowedAmount s) s := by
  rw [coverOutstandingBorrowedAmount]
  split
  · exact ⟨rfl, rfl, rfl, rfl, rfl, rfl, rfl, rfl, rfl, rfl⟩
  · exact sameConfig_refl s

theorem coverColl_config (s : Strategy) :
    sameConfig (coverOutstandingCollateral s) s := by
  rw [coverOutstandingCollateral]
  split
  · exact ⟨rfl, rfl, rfl, rfl, rfl, rfl, rfl, rfl, rfl, rfl⟩
  · exact sameConfig_refl s

theorem borrowIdeal_config (s : Strategy) : sameConfig (borrowUntilIdealSetup s) s := by
  rw [borrowUntilIdealSetup]
  split
  · exact ⟨rfl, rfl, rfl, rfl, rfl, rfl, rfl, rfl, rfl, rfl⟩
  · exact sameConfig_refl s

theorem addLiquidityFinish_config (s : Strategy) (rX rY outX outY : D) :
    sameConfig ((addLiquidityFinish s rX rY outX outY).1) s := by
  rw [addLiquidityFinish]
  split
  · exact ⟨rfl, rfl, rfl, rfl, rfl, rfl, rfl, rfl, rfl, rfl⟩
  · split
    · exact ⟨rfl, rfl, rfl, rfl, rfl, rfl, rfl, rfl, rfl, rfl⟩
    · exact ⟨rfl, rfl, rfl, rfl, rfl, rfl, rfl, rfl, rfl, rfl⟩

theorem addLiquidity_config (s : Strategy) :
    sameConfig ((addOutstandingLiquidityToAMM s).1) s := by
  rw [addOutstandingLiquidityToAMM]
  split
  · split
    · exact sameConfig_refl s
    · exact sameConfig_refl s
  · split
    · dsimp only
      split
      · exact addLiquidityFinish_config s _ _ _ _
      · exact addLiquidityFinish_config s _ _ _ _
    · exact sameConfig_refl s

theorem runSteps_config (s : Strategy) : sameConfig ((runSteps s).1) s := by
  rw [runSteps]
  refine sameConfig_trans _ _ _ (addLiquidity_config _) ?_
  refine sameConfig_trans _ _ _ (borrowIdeal_config _) ?_
  refine sameConfig_trans _ _ _ (coverColl_config _) ?_
  refine sameConfig_trans _ _ _ (coverBorrowed_config _) ?_
  exact sameConfig_trans _ _ _ (withdrawColl_config _) (withdrawAMM_config _)

theorem rebalance_frame (s : Strategy) :
    ((rebalance s).1).currentPrice = s.currentPrice ∧
    ((rebalance s).1).idealRatio = s.idealRatio ∧
    ((rebalance s).1).swapFee = s.swapFee ∧
    ((rebalance s).1).interestPeriod = s.interestPeriod ∧
    ((rebalance s).1).lastRebalancePrice = s.lastRebalancePrice ∧
    ((rebalance s).1).liquidationThreshold = s.liquidationThreshold ∧
    ((rebalance s).1).borrowingInterest = s.borrowingInterest ∧
    ((rebalance s).1).supplyInterest = s.supplyInterest ∧
    ((rebalance s).1).ammSupplyInterest = s.ammSupplyInterest := by
  obtain ⟨h1, h2, h3, h4, h5, h6, h7, h8, h9, _⟩ := runSteps_config s
  rw [rebalance]
  split
  · exact ⟨h1, h2, h3, h4, h5, h6, h7, h8, h9⟩
  · dsimp only
    split
    · exact ⟨h1, h2, h3, h4, h5, h6, h7, h8, h9⟩
    · exact ⟨h1, h2, h3, h4, h5, h6, h7, h8, h9⟩

/- ### Claim C7: non-positive prices are not rejected -/

theorem nextPrice_price (np : D) (s : Strategy) :
    ((nextPrice np s).1).currentPrice = np := by
  have hacc : ((accrueInterest (setPrice np s).interestPeriod (setPrice np s)).1).currentPrice
      = np := by
    rw [accrue_state]
    rfl
  rw [nextPrice]
  split
  · exact hacc
  · try dsimp only
    split
    · try dsimp only
      split
      · exact (rebalance_frame _).1.trans hacc
      · exact (rebalance_frame _).1.trans hacc
    · exact hacc

/-- A degenerate but well-formed state: empty AMM, no debt, no collateral,
zero rates; on it the embedded `nextPrice` follows exactly the source paths
(every division has a zero numerator, so no non-finite value arises). -/
def cexTrivial : Strategy :=
  { currentPrice := ⟨2, 0⟩, idealRatio := ⟨5, 1⟩, swapFee := ⟨0, 0⟩,
    interestPeriod := ⟨5, 0⟩, lastRebalancePrice := ⟨2, 0⟩,
    unusedTON := ⟨0, 0⟩, unusedUSDT := ⟨0, 0⟩,
    initialReserveX := ⟨0, 0⟩, initialReserveY := ⟨0, 0⟩,
    ammSupplyInterest := ⟨0, 0⟩, collateral := ⟨0, 0⟩, debt := ⟨0, 0⟩,
    liquidationThreshold := ⟨2, 0⟩, borrowingInterest := ⟨0, 0⟩,
    supplyInterest := ⟨0, 0⟩, totalRebalances := 0 }

/-- C7 counterexample: feeding the non-positive price `-1` to `nextPrice` is
not rejected — the oracle price is overwritten before anything else, so the
state mutates (price changes from 2 to -1) and the tick completes without an
error. -/
theorem nextPrice_reject_cex :
    toQ (⟨-1, 0⟩ : D) ≤ 0 ∧
    ((nextPrice ⟨-1, 0⟩ cexTrivial).1).currentPrice = ⟨-1, 0⟩ ∧
    toQ ((nextPrice ⟨-1, 0⟩ cexTrivial).1).currentPrice ≠ toQ cexTrivial.currentPrice ∧
    (nextPrice ⟨-1, 0⟩ cexTrivial).2 = none := by
  have h : ((nextPrice ⟨-1, 0⟩ cexTrivial).1).currentPrice = ⟨-1, 0⟩ := by decide
  refine ⟨by norm_num [toQ], h, ?_, by decide⟩
  rw [h]
  norm_num [toQ, cexTrivial]

/-- C7 (amended): a non-positive price is NOT rejected: `setPrice` stores any
value unconditionally, `nextPrice` overwrites the oracle price with it on
every path, and the interest accrual then proceeds on the mutated state (the
debt is rewritten by its growth formula). -/
theorem nextPrice_no_reject (np : D) (s : Strategy) (_h : toQ np ≤ 0) :
    (setPrice np s).currentPrice = np ∧
    ((nextPrice np s).1).currentPrice = np ∧
    ((accrueInterest (setPrice np s).interestPeriod (setPrice np s)).1).debt
      = dFloorAt 9 (dMul s.debt (dAdd (dInt 1)
          (dDiv9 (dMul s.borrowingInterest s.interestPeriod) MINUTES_IN_YEAR))) := by
  refine ⟨rfl, nextPrice_price np s, ?_⟩
  rw [accrue_state]
  rfl

/-- Witness for C7 (amended). -/
theorem nextPrice_no_reject_witness :
    toQ (⟨-1, 0⟩ : D) ≤ 0 ∧ (setPrice ⟨-1, 0⟩ cexTrivial).currentPrice = ⟨-1, 0⟩ := by
  have h : toQ (⟨-1, 0⟩ : D) ≤ 0 := by norm_num [toQ]
  exact ⟨h, (nextPrice_no_reject ⟨-1, 0⟩ cexTrivial h).1⟩

/- ### The cover functions: exact description over `ℚ` -/

theorem toQ_one : toQ (dInt 1) = 1 := by norm_num [dInt, toQ]

theorem toQ_zero : toQ (dInt 0) = 0 := by norm_num [dInt, toQ]

/-- The USDT shortfall left after consuming the unused USDT balance. -/
def usdtShortfall (a : D) (s : Strategy) : ℚ := toQ a - min (toQ s.unusedUSDT) (toQ a)

/-- The TON amount `coverAmountWithUSDT` will try to swap
(`leftUsdtToCover / price / (1 - swapFee)`, both divisions at 9 places). -/
def usdtSwapBound (a : D) (s : Strategy) : ℚ :=
  qTrunc 9 (qTrunc 9 (usdtShortfall a s / toQ s.currentPrice) / (1 - toQ s.swapFee))

/-- The TON shortfall left after consuming the unused TON balance. -/
def tonShortfall (a : D) (s : Strategy) : ℚ := toQ a - min (toQ s.unusedTON) (toQ a)

/-- The USDT amount `coverAmountWithTON` will try to swap
(`leftTonToCover * price / (1 - swapFee)`). -/
def tonSwapBound (a : D) (s : Strategy) : ℚ :=
  qTrunc 9 (tonShortfall a s * toQ s.currentPrice / (1 - toQ s.swapFee))

theorem coverUSDT_state (a : D) (s : Strategy)
    (hp : ¬ toQ s.currentPrice = 0) (hf : ¬ (1 - toQ s.swapFee = 0)) :
    toQ ((coverAmountWithUSDT a s).2).unusedUSDT
      = toQ s.unusedUSDT - min (toQ s.unusedUSDT) (toQ a) ∧
    toQ ((coverAmountWithUSDT a s).2).unusedTON
      = toQ s.unusedTON - min (toQ s.unusedTON) (usdtSwapBound a s) ∧
    toQ (coverAmountWithUSDT a s).1
      = min (toQ s.unusedUSDT) (toQ a)
        + min (toQ s.unusedTON) (usdtSwapBound a s)
          * (1 - toQ s.swapFee) * toQ s.currentPrice := by
  refine ⟨?_, ?_, ?_⟩
  · show toQ (dSub s.unusedUSDT (dMin s.unusedUSDT a)) = _
    rw [toQ_dSub, toQ_dMin]
  · show toQ (dSub s.unusedTON (dMin s.unusedTON
      (dDiv9 (dDiv9 (dSub a (dMin s.unusedUSDT a)) s.currentPrice)
        (dSub (dInt 1) s.swapFee)))) = _
    simp only [toQ_dSub, toQ_dMin, toQ_dDiv9, toQ_one]
    rw [if_neg hf, if_neg hp]
    rw [usdtSwapBound, usdtShortfall]
  · show toQ (dAdd (dMin s.unusedUSDT a)
      (dMul (dMul (dMin s.unusedTON
        (dDiv9 (dDiv9 (dSub a (dMin s.unusedUSDT a)) s.currentPrice)
          (dSub (dInt 1) s.swapFee))) (dSub (dInt 1) s.swapFee)) s.currentPrice)) = _
    simp only [toQ_dAdd, toQ_dMul, toQ_dSub, toQ_dMin, toQ_dDiv9, toQ_one]
    rw [if_neg hf, if_neg hp]
    rw [usdtSwapBound, usdtShortfall]

theorem coverTON_state (a : D) (s : Strategy)
    (hp : ¬ toQ s.currentPrice = 0) (hf : ¬ (1 - toQ s.swapFee = 0)) :
    toQ ((coverAmountWithTON a s).2).unusedTON
      = toQ s.unusedTON - min (toQ s.unusedTON) (toQ a) ∧
    toQ ((coverAmountWithTON a s).2).unusedUSDT
      = toQ s.unusedUSDT - min (toQ s.unusedUSDT) (tonSwapBound a s) ∧
    toQ (coverAmountWithTON a s).1
      = min (toQ s.unusedTON) (toQ a)
        + qTrunc 9 (min (toQ s.unusedUSDT) (tonSwapBound a s)
            * (1 - toQ s.swapFee) / toQ s.currentPrice) := by
  refine ⟨?_, ?_, ?_⟩
  · show toQ (dSub s.unusedTON (dMin s.unusedTON a)) = _
    rw [toQ_dSub, toQ_dMin]
  · show toQ (dSub s.unusedUSDT (dMin s.unusedUSDT
      (dDiv9 (dMul (dSub a (dMin s.unusedTON a)) s.currentPrice)
        (dSub (dInt 1) s.swapFee)))) = _
    simp only [toQ_dSub, toQ_dMin, toQ_dDiv9, toQ_dMul, toQ_one]
    rw [if_neg hf]
    rw [tonSwapBound, tonShortfall]
  · show toQ (dAdd (dMin s.unusedTON a)
      (dDiv9 (dMul (dMin s.unusedUSDT
        (dDiv9 (dMul (dSub a (dMin s.unusedTON a)) s.currentPrice)
          (dSub (dInt 1) s.swapFee))) (dSub (dInt 1) s.swapFee)) s.currentPrice)) = _
    simp only [toQ_dAdd, toQ_dMul, toQ_dSub, toQ_dMin, toQ_dDiv9, toQ_one]
    rw [if_neg hf, if_neg hp]
    rw [tonSwapBound, tonShortfall]

theorem usdtShortfall_nonneg (a : D) (s : Strategy) : 0 ≤ usdtShortfall a s := by
  rw [usdtShortfall]
  have := min_le_right (toQ s.unusedUSDT) (toQ a)
  linarith

theorem tonShortfall_nonneg (a : D) (s : Strategy) : 0 ≤ tonShortfall a s := by
  rw [tonShortfall]
  have := min_le_right (toQ s.unusedTON) (toQ a)
  linarith

theorem usdtSwapBound_nonneg (a : D) (s : Strategy)
    (hp : 0 < toQ s.currentPrice) (hf : toQ s.swapFee < 1) : 0 ≤ usdtSwapBound a s := by
  rw [usdtSwapBound]
  apply qTrunc_nonneg
  apply div_nonneg _ (by linarith)
  apply qTrunc_nonneg
  exact div_nonneg (usdtShortfall_nonneg a s) hp.le

theorem tonSwapBound_nonneg (a : D) (s : Strategy)
    (hp : 0 < toQ s.currentPrice) (hf : toQ s.swapFee < 1) : 0 ≤ tonSwapBound a s := by
  rw [tonSwapBound]
  apply qTrunc_nonneg
  apply div_nonneg _ (by linarith)
  exact mul_nonneg (tonShortfall_nonneg a s) hp.le

theorem coverUSDT_nonneg (a : D) (s : Strategy)
    (hT : 0 ≤ toQ s.unusedTON) (hU : 0 ≤ toQ s.unusedUSDT)
    (hp : 0 < toQ s.currentPrice) (hf : toQ s.swapFee < 1) :
    0 ≤ toQ ((coverAmountWithUSDT a s).2).unusedTON ∧
    0 ≤ toQ ((coverAmountWithUSDT a s).2).unusedUSDT := by
  obtain ⟨h1, h2, _⟩ := coverUSDT_state a s hp.ne' (by intro h; nlinarith)
  constructor
  · rw [h2]
    have := min_le_left (toQ s.unusedTON) (usdtSwapBound a s)
    linarith
  · rw [h1]
    have := min_le_left (toQ s.unusedUSDT) (toQ a)
    linarith

theorem coverTON_nonneg (a : D) (s : Strategy)
    (hT : 0 ≤ toQ s.unusedTON) (hU : 0 ≤ toQ s.unusedUSDT)
    (hp : 0 < toQ s.currentPrice) (hf : toQ s.swapFee < 1) :
    0 ≤ toQ ((coverAmountWithTON a s).2).unusedTON ∧
    0 ≤ toQ ((coverAmountWithTON a s).2).unusedUSDT := by
  obtain ⟨h1, h2, _⟩ := coverTON_state a s hp.ne' (by intro h; nlinarith)
  constructor
  · rw [h1]
    have := min_le_left (toQ s.unusedTON) (toQ a)
    linarith
  · rw [h2]
    have := min_le_left (toQ s.unusedUSDT) (tonSwapBound a s)
    linarith

/-- Value conservation of `coverAmountWithUSDT`: the returned USDT is worth at
most the value taken out of the unused balances (the swap fee is lost). -/
theorem coverUSDT_value (a : D) (s : Strategy)
    (hT : 0 ≤ toQ s.unusedTON) (hU : 0 ≤ toQ s.unusedUSDT)
    (hp : 0 < toQ s.currentPrice) (hf0 : 0 ≤ toQ s.swapFee) (hf : toQ s.swapFee < 1) :
    toQ (coverAmountWithUSDT a s).1
      ≤ (toQ s.unusedUSDT - toQ ((coverAmountWithUSDT a s).2).unusedUSDT)
        + (toQ s.unusedTON - toQ ((coverAmountWithUSDT a s).2).unusedTON)
          * toQ s.currentPrice := by
  obtain ⟨h1, h2, h3⟩ := coverUSDT_state a s hp.ne' (by intro h; nlinarith)
  rw [h1, h2, h3]
  have hb := usdtSwapBound_nonneg a s hp hf
  have ht : 0 ≤ min (toQ s.unusedTON) (usdtSwapBound a s) := le_min hT hb
  nlinarith [mul_nonneg (mul_nonneg ht hf0) hp.le]

/-- Value conservation of `coverAmountWithTON`. -/
theorem coverTON_value (a : D) (s : Strategy)
    (hT : 0 ≤ toQ s.unusedTON) (hU : 0 ≤ toQ s.unusedUSDT)
    (hp : 0 < toQ s.currentPrice) (hf0 : 0 ≤ toQ s.swapFee) (hf : toQ s.swapFee < 1) :
    toQ s.currentPrice * toQ (coverAmountWithTON a s).1
      ≤ (toQ s.unusedTON - toQ ((coverAmountWithTON a s).2).unusedTON)
          * toQ s.currentPrice
        + (toQ s.unusedUSDT - toQ ((coverAmountWithTON a s).2).unusedUSDT) := by
  obtain ⟨h1, h2, h3⟩ := coverTON_state a s hp.ne' (by intro h; nlinarith)
  rw [h1, h2, h3]
  have hb := tonSwapBound_nonneg a s hp hf
  have hu : 0 ≤ min (toQ s.unusedUSDT) (tonSwapBound a s) := le_min hU hb
  have harg : 0 ≤ min (toQ s.unusedUSDT) (tonSwapBound a s)
      * (1 - toQ s.swapFee) / toQ s.currentPrice := by
    apply div_nonneg _ hp.le
    exact mul_nonneg hu (by linarith)
  have htr := qTrunc_le 9 _ harg
  have key : toQ s.currentPrice
      * qTrunc 9 (min (toQ s.unusedUSDT) (tonSwapBound a s)
          * (1 - toQ s.swapFee) / toQ s.currentPrice)
      ≤ min (toQ s.unusedUSDT) (tonSwapBound a s) := by
    have h4 := mul_le_mul_of_nonneg_left htr hp.le
    have h5 : toQ s.currentPrice * (min (toQ s.unusedUSDT) (tonSwapBound a s)
        * (1 - toQ s.swapFee) / toQ s.currentPrice)
        = min (toQ s.unusedUSDT) (tonSwapBound a s) * (1 - toQ s.swapFee) := by
      field_simp
    rw [h5] at h4
    nlinarith [mul_nonneg hu hf0]
  nlinarith [key]

/-- The covered amount returned by `coverAmountWithUSDT` is non-negative for a
non-negative request. -/
theorem coverUSDT_result_nonneg (a : D) (s : Strategy) (ha : 0 ≤ toQ a)
    (hT : 0 ≤ toQ s.unusedTON) (hU : 0 ≤ toQ s.unusedUSDT)
    (hp : 0 < toQ s.currentPrice) (hf0 : 0 ≤ toQ s.swapFee) (hf : toQ s.swapFee < 1) :
    0 ≤ toQ (coverAmountWithUSDT a s).1 := by
  obtain ⟨_, _, h3⟩ := coverUSDT_state a s hp.ne' (by intro h; nlinarith)
  rw [h3]
  have hb := usdtSwapBound_nonneg a s hp hf
  have ht : 0 ≤ min (toQ s.unusedTON) (usdtSwapBound a s) := le_min hT hb
  have hm : 0 ≤ min (toQ s.unusedUSDT) (toQ a) := le_min hU ha
  nlinarith [mul_nonneg (mul_nonneg ht (by linarith : (0:ℚ) ≤ 1 - toQ s.swapFee)) hp.le]


/- Small arithmetic steps for the cover-amount bounds, kept standalone so each
linear-arithmetic call works in a minimal context. -/

theorem c5_usdtLe (p f L d b T : ℚ) (hp : 0 ≤ p) (hf1 : (0:ℚ) ≤ 1 - f)
    (hbf : b * (1 - f) ≤ d) (hdp : d * p ≤ L) :
    min T b * (1 - f) * p ≤ L := by
  have h1 : min T b * (1 - f) ≤ b * (1 - f) :=
    mul_le_mul_of_nonneg_right (min_le_right _ _) hf1
  have h2 : min T b * (1 - f) * p ≤ d * p :=
    mul_le_mul_of_nonneg_right (le_trans h1 hbf) hp
  linarith

theorem c5_usdtFull (p f L d b : ℚ) (hp : 0 < p) (hf1 : (0:ℚ) < 1 - f) (hf0 : 0 ≤ f)
    (hd : L / p < d + (10 ^ 9 : ℚ)⁻¹) (hb : d / (1 - f) < b + (10 ^ 9 : ℚ)⁻¹) :
    L - 2 / 10 ^ 9 * p < b * (1 - f) * p := by
  have e1 : d < (b + (10 ^ 9 : ℚ)⁻¹) * (1 - f) := (div_lt_iff₀ hf1).mp hb
  have e2 : L < (d + (10 ^ 9 : ℚ)⁻¹) * p := (div_lt_iff₀ hp).mp hd
  have e1' : (b + (10 ^ 9 : ℚ)⁻¹) * (1 - f)
      = b * (1 - f) + (10 ^ 9 : ℚ)⁻¹ * (1 - f) := by ring
  have e3 : (10 ^ 9 : ℚ)⁻¹ * (1 - f) ≤ (10 ^ 9 : ℚ)⁻¹ := by nlinarith
  have e4 : d < b * (1 - f) + (10 ^ 9 : ℚ)⁻¹ := by rw [e1'] at e1; linarith
  have e4p : d * p < (b * (1 - f) + (10 ^ 9 : ℚ)⁻¹) * p := mul_lt_mul_of_pos_right e4 hp
  have e4p' : (b * (1 - f) + (10 ^ 9 : ℚ)⁻¹) * p
      = b * (1 - f) * p + (10 ^ 9 : ℚ)⁻¹ * p := by ring
  have e2' : (d + (10 ^ 9 : ℚ)⁻¹) * p = d * p + (10 ^ 9 : ℚ)⁻¹ * p := by ring
  have e5 : L < b * (1 - f) * p + 2 * ((10 ^ 9 : ℚ)⁻¹ * p) := by
    rw [e2'] at e2; rw [e4p'] at e4p; linarith
  have e6 : (2:ℚ) / 10 ^ 9 * p = 2 * ((10 ^ 9 : ℚ)⁻¹ * p) := by ring
  linarith [e6, e5]

theorem c5_usdtPartial (p f L d b T : ℚ) (hp : 0 < p) (hf1 : (0:ℚ) < 1 - f)
    (hlt : T < b) (hbf : b * (1 - f) ≤ d) (hdp : d * p ≤ L) :
    T * (1 - f) * p < L := by
  have h1 : T * (1 - f) < b * (1 - f) := mul_lt_mul_of_pos_right hlt hf1
  have h2 : T * (1 - f) * p < d * p :=
    mul_lt_mul_of_pos_right (lt_of_lt_of_le h1 hbf) hp
  linarith

theorem c5_tonLe (p f L b U SP : ℚ) (hp : 0 < p) (hf1 : (0:ℚ) ≤ 1 - f)
    (hSP : SP ≤ min U b * (1 - f) / p) (hbL : b * (1 - f) ≤ L * p) :
    SP ≤ L := by
  have h1 : SP * p ≤ min U b * (1 - f) := (le_div_iff₀ hp).mp hSP
  have h2 : min U b * (1 - f) ≤ b * (1 - f) :=
    mul_le_mul_of_nonneg_right (min_le_right _ _) hf1
  exact le_of_mul_le_mul_right (by linarith) hp

theorem c5_tonFull (p f L b SP : ℚ) (hp : 0 < p) (hf1 : (0:ℚ) < 1 - f) (hf0 : 0 ≤ f)
    (hbb : L * p / (1 - f) < b + (10 ^ 9 : ℚ)⁻¹)
    (hSPb : b * (1 - f) / p < SP + (10 ^ 9 : ℚ)⁻¹) :
    L - (1 / 10 ^ 9 / p + 1 / 10 ^ 9) < SP := by
  have e1 : L * p < (b + (10 ^ 9 : ℚ)⁻¹) * (1 - f) := (div_lt_iff₀ hf1).mp hbb
  have e2 : b * (1 - f) < (SP + (10 ^ 9 : ℚ)⁻¹) * p := (div_lt_iff₀ hp).mp hSPb
  have e1' : (b + (10 ^ 9 : ℚ)⁻¹) * (1 - f)
      = b * (1 - f) + (10 ^ 9 : ℚ)⁻¹ * (1 - f) := by ring
  have e3 : (10 ^ 9 : ℚ)⁻¹ * (1 - f) ≤ (10 ^ 9 : ℚ)⁻¹ := by nlinarith
  have e4 : L * p < (SP + (10 ^ 9 : ℚ)⁻¹) * p + (10 ^ 9 : ℚ)⁻¹ := by
    rw [e1'] at e1; linarith
  have ec : ((10 ^ 9 : ℚ)⁻¹ / p) * p = (10 ^ 9 : ℚ)⁻¹ := div_mul_cancel₀ _ hp.ne'
  have e5 : (SP + (10 ^ 9 : ℚ)⁻¹ + (10 ^ 9 : ℚ)⁻¹ / p) * p
      = (SP + (10 ^ 9 : ℚ)⁻¹) * p + ((10 ^ 9 : ℚ)⁻¹ / p) * p := by ring
  have e6 : L < SP + (10 ^ 9 : ℚ)⁻¹ + (10 ^ 9 : ℚ)⁻¹ / p :=
    lt_of_mul_lt_mul_right (by rw [e5, ec]; linarith) hp.le
  have e8 : (1:ℚ) / 10 ^ 9 = (10 ^ 9 : ℚ)⁻¹ := by norm_num
  rw [e8]
  linarith

theorem c5_tonPartial (p f L b U SP : ℚ) (hp : 0 < p) (hf1 : (0:ℚ) < 1 - f)
    (hlt : U < b) (hSP : SP ≤ U * (1 - f) / p) (hbL : b * (1 - f) ≤ L * p) :
    SP < L := by
  have h1 : SP * p ≤ U * (1 - f) := (le_div_iff₀ hp).mp hSP
  have h2 : U * (1 - f) < b * (1 - f) := mul_lt_mul_of_pos_right hlt hf1
  exact lt_of_mul_lt_mul_right (by linarith) hp.le

/-- C5 (amended): for a non-negative request, non-negative unused balances, a
positive price and a fee in [0,1): each cover function returns at most the
requested amount; the USDT side satisfies the exact accounting identity
`returned = ΔunusedUSDT + ΔunusedTON * price * (1 - fee)` while the TON side
satisfies it with the final division truncated at 9 decimal places; the
swap-produced part never exceeds the remaining shortfall, comes within the
9-decimal-place division roundings of it (`2e-9 * price` on the USDT side,
`1e-9 / price + 1e-9` on the TON side) when the other balance suffices for the
full swap, and is strictly below it when that balance is exhausted first. -/
theorem coverAmount_spec (a : D) (s : Strategy)
    (ha : 0 ≤ toQ a) (hT : 0 ≤ toQ s.unusedTON) (hU : 0 ≤ toQ s.unusedUSDT)
    (hp : 0 < toQ s.currentPrice) (hf0 : 0 ≤ toQ s.swapFee) (hf : toQ s.swapFee < 1) :
    toQ (coverAmountWithUSDT a s).1 ≤ toQ a ∧
    toQ (coverAmountWithUSDT a s).1
      = (toQ s.unusedUSDT - toQ ((coverAmountWithUSDT a s).2).unusedUSDT)
        + (toQ s.unusedTON - toQ ((coverAmountWithUSDT a s).2).unusedTON)
          * toQ s.currentPrice * (1 - toQ s.swapFee) ∧
    toQ (coverAmountWithUSDT a s).1 - min (toQ s.unusedUSDT) (toQ a)
      ≤ usdtShortfall a s ∧
    (usdtSwapBound a s ≤ toQ s.unusedTON →
      usdtShortfall a s - 2 / 10 ^ 9 * toQ s.currentPrice
        < toQ (coverAmountWithUSDT a s).1 - min (toQ s.unusedUSDT) (toQ a)) ∧
    (toQ s.unusedTON < usdtSwapBound a s →
      toQ (coverAmountWithUSDT a s).1 - min (toQ s.unusedUSDT) (toQ a)
        < usdtShortfall a s) ∧
    toQ (coverAmountWithTON a s).1 ≤ toQ a ∧
    toQ (coverAmountWithTON a s).1
      = (toQ s.unusedTON - toQ ((coverAmountWithTON a s).2).unusedTON)
        + qTrunc 9 ((toQ s.unusedUSDT - toQ ((coverAmountWithTON a s).2).unusedUSDT)
            * (1 - toQ s.swapFee) / toQ s.currentPrice) ∧
    toQ (coverAmountWithTON a s).1 - min (toQ s.unusedTON) (toQ a)
      ≤ tonShortfall a s ∧
    (tonSwapBound a s ≤ toQ s.unusedUSDT →
      tonShortfall a s - (1 / 10 ^ 9 / toQ s.currentPrice + 1 / 10 ^ 9)
        < toQ (coverAmountWithTON a s).1 - min (toQ s.unusedTON) (toQ a)) ∧
    (toQ s.unusedUSDT < tonSwapBound a s →
      toQ (coverAmountWithTON a s).1 - min (toQ s.unusedTON) (toQ a)
        < tonShortfall a s) := by
  have hf1 : (0:ℚ) < 1 - toQ s.swapFee := by linarith
  obtain ⟨hu1, hu2, hu3⟩ := coverUSDT_state a s hp.ne' (by intro h; linarith)
  obtain ⟨ht1, ht2, ht3⟩ := coverTON_state a s hp.ne' (by intro h; linarith)
  set p := toQ s.currentPrice with hpdef
  set f := toQ s.swapFee with hfdef
  -- USDT-side quantities
  set L := usdtShortfall a s with hLdef
  have hLval : L = toQ a - min (toQ s.unusedUSDT) (toQ a) := by
    rw [hLdef, usdtShortfall]
  have hL0 : 0 ≤ L := usdtShortfall_nonneg a s
  set d1 := qTrunc 9 (L / p) with hd1def
  have hd1a : d1 ≤ L / p := qTrunc_le 9 _ (div_nonneg hL0 hp.le)
  have hd1b : L / p < d1 + (10 ^ 9 : ℚ)⁻¹ := lt_qTrunc_add 9 _ (div_nonneg hL0 hp.le)
  have hd10 : 0 ≤ d1 := qTrunc_nonneg 9 _ (div_nonneg hL0 hp.le)
  have hbB : usdtSwapBound a s = qTrunc 9 (d1 / (1 - f)) := by
    rw [usdtSwapBound, hd1def, hLdef]
  set b := usdtSwapBound a s with hbdef
  have hba : b ≤ d1 / (1 - f) := hbB ▸ qTrunc_le 9 _ (div_nonneg hd10 hf1.le)
  have hbb : d1 / (1 - f) < b + (10 ^ 9 : ℚ)⁻¹ :=
    hbB ▸ lt_qTrunc_add 9 _ (div_nonneg hd10 hf1.le)
  have hd1p : d1 * p ≤ L := (le_div_iff₀ hp).mp hd1a
  have hbf : b * (1 - f) ≤ d1 := (le_div_iff₀ hf1).mp hba
  have hswap : toQ (coverAmountWithUSDT a s).1 - min (toQ s.unusedUSDT) (toQ a)
      = min (toQ s.unusedTON) b * (1 - f) * p := by
    rw [hu3]; ring
  have husdt3 : toQ (coverAmountWithUSDT a s).1 - min (toQ s.unusedUSDT) (toQ a) ≤ L := by
    rw [hswap]
    exact c5_usdtLe p f L d1 b (toQ s.unusedTON) hp.le hf1.le hbf hd1p
  have husdt1 : toQ (coverAmountWithUSDT a s).1 ≤ toQ a := by
    have hm := min_le_right (toQ s.unusedUSDT) (toQ a)
    rw [hLval] at husdt3
    linarith
  have husdt2 : toQ (coverAmountWithUSDT a s).1
      = (toQ s.unusedUSDT - toQ ((coverAmountWithUSDT a s).2).unusedUSDT)
        + (toQ s.unusedTON - toQ ((coverAmountWithUSDT a s).2).unusedTON)
          * p * (1 - f) := by
    rw [hu1, hu2, hu3]; ring
  have husdt4 : b ≤ toQ s.unusedTON →
      L - 2 / 10 ^ 9 * p
        < toQ (coverAmountWithUSDT a s).1 - min (toQ s.unusedUSDT) (toQ a) := by
    intro hsuff
    rw [hswap, min_eq_right hsuff]
    exact c5_usdtFull p f L d1 b hp hf1 hf0 hd1b hbb
  have husdt5 : toQ s.unusedTON < b →
      toQ (coverAmountWithUSDT a s).1 - min (toQ s.unusedUSDT) (toQ a) < L := by
    intro hlt
    rw [hswap, min_eq_left hlt.le]
    exact c5_usdtPartial p f L d1 b (toQ s.unusedTON) hp hf1 hlt hbf hd1p
  -- TON-side quantities
  set L' := tonShortfall a s with hLpdef
  have hLpval : L' = toQ a - min (toQ s.unusedTON) (toQ a) := by
    rw [hLpdef, tonShortfall]
  have hL0' : 0 ≤ L' := tonShortfall_nonneg a s
  have hbB' : tonSwapBound a s = qTrunc 9 (L' * p / (1 - f)) := by
    rw [tonSwapBound, hLpdef]
  set b' := tonSwapBound a s with hbpdef
  have harg' : 0 ≤ L' * p / (1 - f) := div_nonneg (mul_nonneg hL0' hp.le) hf1.le
  have hba' : b' ≤ L' * p / (1 - f) := hbB' ▸ qTrunc_le 9 _ harg'
  have hbb' : L' * p / (1 - f) < b' + (10 ^ 9 : ℚ)⁻¹ := hbB' ▸ lt_qTrunc_add 9 _ harg'
  have hb0' : 0 ≤ b' := hbB' ▸ qTrunc_nonneg 9 _ harg'
  have hbL' : b' * (1 - f) ≤ L' * p := (le_div_iff₀ hf1).mp hba'
  have hM0' : 0 ≤ min (toQ s.unusedUSDT) b' := le_min hU hb0'
  have hswaparg : 0 ≤ min (toQ s.unusedUSDT) b' * (1 - f) / p :=
    div_nonneg (mul_nonneg hM0' hf1.le) hp.le
  have hSPa : qTrunc 9 (min (toQ s.unusedUSDT) b' * (1 - f) / p)
      ≤ min (toQ s.unusedUSDT) b' * (1 - f) / p := qTrunc_le 9 _ hswaparg
  have hSPb : min (toQ s.unusedUSDT) b' * (1 - f) / p
      < qTrunc 9 (min (toQ s.unusedUSDT) b' * (1 - f) / p) + (10 ^ 9 : ℚ)⁻¹ :=
    lt_qTrunc_add 9 _ hswaparg
  have hswap' : toQ (coverAmountWithTON a s).1 - min (toQ s.unusedTON) (toQ a)
      = qTrunc 9 (min (toQ s.unusedUSDT) b' * (1 - f) / p) := by
    rw [ht3]; ring
  have hton3 : toQ (coverAmountWithTON a s).1 - min (toQ s.unusedTON) (toQ a) ≤ L' := by
    rw [hswap']
    exact c5_tonLe p f L' b' (toQ s.unusedUSDT) _ hp hf1.le hSPa hbL'
  have hton1 : toQ (coverAmountWithTON a s).1 ≤ toQ a := by
    have hm := min_le_right (toQ s.unusedTON) (toQ a)
    rw [hLpval] at hton3
    linarith
  have hton2 : toQ (coverAmountWithTON a s).1
      = (toQ s.unusedTON - toQ ((coverAmountWithTON a s).2).unusedTON)
        + qTrunc 9 ((toQ s.unusedUSDT - toQ ((coverAmountWithTON a s).2).unusedUSDT)
            * (1 - f) / p) := by
    have hU' : toQ s.unusedUSDT - toQ ((coverAmountWithTON a s).2).unusedUSDT
        = min (toQ s.unusedUSDT) b' := by rw [ht2]; ring
    have hT' : toQ s.unusedTON - toQ ((coverAmountWithTON a s).2).unusedTON
        = min (toQ s.unusedTON) (toQ a) := by rw [ht1]; ring
    rw [hU', hT']
    exact ht3
  have hton4 : b' ≤ toQ s.unusedUSDT →
      L' - (1 / 10 ^ 9 / p + 1 / 10 ^ 9)
        < toQ (coverAmountWithTON a s).1 - min (toQ s.unusedTON) (toQ a) := by
    intro hsuff
    rw [hswap', min_eq_right hsuff] at *
    exact c5_tonFull p f L' b' _ hp hf1 hf0 hbb' hSPb
  have hton5 : toQ s.unusedUSDT < b' →
      toQ (coverAmountWithTON a s).1 - min (toQ s.unusedTON) (toQ a) < L' := by
    intro hlt
    rw [hswap', min_eq_left hlt.le] at *
    exact c5_tonPartial p f L' b' (toQ s.unusedUSDT) _ hp hf1 hlt hSPa hbL'
  exact ⟨husdt1, husdt2, husdt3, husdt4, husdt5, hton1, hton2, hton3, hton4, hton5⟩

/-- A state for exercising the cover functions: price 3, fee 1%, one unused
TON, no unused USDT. -/
def cexCover : Strategy :=
  { currentPrice := ⟨3, 0⟩
    idealRatio := ⟨33, 2⟩
    swapFee := ⟨1, 2⟩
    interestPeriod := ⟨5, 0⟩
    lastRebalancePrice := ⟨3, 0⟩
    unusedTON := ⟨1, 0⟩
    unusedUSDT := ⟨0, 0⟩
    initialReserveX := ⟨100, 0⟩
    initialReserveY := ⟨300, 0⟩
    ammSupplyInterest := ⟨2, 1⟩
    collateral := ⟨0, 0⟩
    debt := ⟨0, 0⟩
    liquidationThreshold := ⟨125, 2⟩
    borrowingInterest := ⟨2, 2⟩
    supplyInterest := ⟨8, 2⟩
    totalRebalances := 0 }

/-- C5 counterexample: at price 3, fee 1%, unusedUSDT = 0, unusedTON = 1 and
request 0.1, the unused TON suffices for the full swap (the cap 0.033670033 is
below 1), yet the swap-produced part of the returned amount is
0.09999999801, strictly less than the 0.1 shortfall: the two 9-decimal-place
round-down divisions make "exactly equals the remaining shortfall when
unusedTON suffices" false. -/
theorem coverAmount_exact_cex :
    0 ≤ toQ (⟨1, 1⟩ : D) ∧
    0 ≤ toQ cexCover.unusedTON ∧ 0 ≤ toQ cexCover.unusedUSDT ∧
    0 < toQ cexCover.currentPrice ∧
    0 ≤ toQ cexCover.swapFee ∧ toQ cexCover.swapFee < 1 ∧
    usdtSwapBound ⟨1, 1⟩ cexCover ≤ toQ cexCover.unusedTON ∧
    toQ (coverAmountWithUSDT ⟨1, 1⟩ cexCover).1
        - min (toQ cexCover.unusedUSDT) (toQ (⟨1, 1⟩ : D))
      ≠ usdtShortfall ⟨1, 1⟩ cexCover := by
  have hfee : toQ cexCover.swapFee < 1 := by
    have h := (dLt_true_iff cexCover.swapFee (dInt 1)).mp (by decide)
    rwa [toQ_one] at h
  have hp : 0 < toQ cexCover.currentPrice := (toQ_pos_iff _).mpr (by decide)
  have hT1 : toQ cexCover.unusedTON = 1 := by
    show ((1 : ℤ) : ℚ) / 10 ^ (0 : ℕ) = 1
    norm_num
  have hres : toQ (coverAmountWithUSDT ⟨1, 1⟩ cexCover).1 = 9999999801 / 10 ^ 11 := by
    have h : (coverAmountWithUSDT ⟨1, 1⟩ cexCover).1 = ⟨9999999801, 11⟩ := by decide
    rw [h]
    show ((9999999801 : ℤ) : ℚ) / 10 ^ (11 : ℕ) = 9999999801 / 10 ^ 11
    norm_num
  have hres2 : toQ ((coverAmountWithUSDT ⟨1, 1⟩ cexCover).2).unusedTON
      = 966329967 / 10 ^ 9 := by
    have h : ((coverAmountWithUSDT ⟨1, 1⟩ cexCover).2).unusedTON = ⟨966329967, 9⟩ := by
      decide
    rw [h]
    show ((966329967 : ℤ) : ℚ) / 10 ^ (9 : ℕ) = 966329967 / 10 ^ 9
    norm_num
  have hUv : toQ cexCover.unusedUSDT = 0 := by
    show ((0 : ℤ) : ℚ) / 10 ^ (0 : ℕ) = 0
    norm_num
  have hav : toQ (⟨1, 1⟩ : D) = 1 / 10 := by
    show ((1 : ℤ) : ℚ) / 10 ^ (1 : ℕ) = 1 / 10
    norm_num
  obtain ⟨_, hu2, _⟩ := coverUSDT_state ⟨1, 1⟩ cexCover hp.ne' (by intro h; linarith)
  have hbound : usdtSwapBound ⟨1, 1⟩ cexCover ≤ toQ cexCover.unusedTON := by
    rw [hres2, hT1] at hu2
    rcases min_cases (toQ cexCover.unusedTON) (usdtSwapBound ⟨1, 1⟩ cexCover) with
      ⟨_, hle⟩ | ⟨_, hlt⟩
    · rw [hT1] at hle
      rw [min_eq_left hle] at hu2
      norm_num at hu2
    · exact hlt.le
  refine ⟨(toQ_nonneg_iff _).mpr (by decide), (toQ_nonneg_iff _).mpr (by decide),
    (toQ_nonneg_iff _).mpr (by decide), hp, (toQ_nonneg_iff _).mpr (by decide),
    hfee, hbound, ?_⟩
  rw [hres, hUv, hav, usdtShortfall, hUv, hav]
  norm_num

/-- Witness for `coverAmount_spec` at the concrete state `cexCover` with
request 0.1: the returned USDT never exceeds the request. -/
theorem coverAmount_spec_witness :
    toQ (coverAmountWithUSDT ⟨1, 1⟩ cexCover).1 ≤ toQ (⟨1, 1⟩ : D) :=
  (coverAmount_spec ⟨1, 1⟩ cexCover
    ((toQ_nonneg_iff _).mpr (by decide))
    ((toQ_nonneg_iff _).mpr (by decide))
    ((toQ_nonneg_iff _).mpr (by decide))
    ((toQ_pos_iff _).mpr (by decide))
    ((toQ_nonneg_iff _).mpr (by decide))
    (by
      have h := (dLt_true_iff cexCover.swapFee (dInt 1)).mp (by decide)
      rwa [toQ_one] at h)).1

/- ### Claim C10: the inconsistency error is not atomic -/

theorem addLiquidityFinish_no_incons (s : Strategy) (rX rY outX outY vb va : D) :
    (addLiquidityFinish s rX rY outX outY).2 ≠ some (.inconsistency vb va) := by
  rw [addLiquidityFinish]
  split
  · simp
  · split
    · simp
    · simp

theorem addLiquidity_no_incons (s : Strategy) (vb va : D) :
    (addOutstandingLiquidityToAMM s).2 ≠ some (.inconsistency vb va) := by
  rw [addOutstandingLiquidityToAMM]
  split
  · split
    · simp
    · simp
  · split
    · dsimp only
      split
      · exact addLiquidityFinish_no_incons _ _ _ _ _ _ _
      · exact addLiquidityFinish_no_incons _ _ _ _ _ _ _
    · simp

theorem runSteps_no_incons (s : Strategy) (vb va : D) :
    (runSteps s).2 ≠ some (.inconsistency vb va) := by
  rw [runSteps]
  exact addLiquidity_no_incons _ _ _

/-- If one of the six steps reports an error, `rebalance` returns its result
unchanged (in particular `totalRebalances` is not incremented). -/
theorem rebalance_of_stepError (s : Strategy) (h : (runSteps s).2.isSome = true) :
    rebalance s = runSteps s := by
  rw [rebalance]
  split
  · rfl
  · rename_i hc
    exact absurd h hc

/-- If the six steps succeed, the state returned by `rebalance` is the
post-step state with `totalRebalances` incremented, whether or not the
inconsistency check fires. -/
theorem rebalance_fst_ok (s : Strategy) (h : (runSteps s).2.isSome = false) :
    (rebalance s).1
      = { (runSteps s).1 with totalRebalances := ((runSteps s).1).totalRebalances + 1 } := by
  rw [rebalance]
  split
  · rename_i hc
    rw [h] at hc
    exact Bool.noConfusion hc
  · dsimp only
    split
    · rfl
    · rfl

/-- C10: when `rebalance` reports the internal-inconsistency error, the update
is not atomic: the returned state is exactly the post-six-step state except
that `totalRebalances` has already been incremented over the pre-rebalance
count; none of the six steps' mutations are rolled back. -/
theorem rebalance_error_no_rollback (s : Strategy) (vb va : D)
    (h : (rebalance s).2 = some (.inconsistency vb va)) :
    (rebalance s).1
      = { (runSteps s).1 with totalRebalances := s.totalRebalances + 1 } ∧
    ((rebalance s).1).totalRebalances = s.totalRebalances + 1 := by
  have hs : (runSteps s).2.isSome = false := by
    cases he : (runSteps s).2 with
    | none => rfl
    | some e =>
      have hr : rebalance s = runSteps s := rebalance_of_stepError s (by rw [he]; rfl)
      rw [hr, he] at h
      have hni := runSteps_no_incons s vb va
      rw [he] at hni
      exact absurd h hni
  have h1 := rebalance_fst_ok s hs
  obtain ⟨_, _, _, _, _, _, _, _, _, h10⟩ := runSteps_config s
  constructor
  · rw [h1, h10]
  · rw [h1]
    show ((runSteps s).1).totalRebalances + 1 = s.totalRebalances + 1
    rw [h10]

/-- Witness for `rebalance_error_no_rollback`: the insolvent state triggers the
inconsistency error, and the returned counter is incremented anyway. -/
theorem rebalance_error_no_rollback_witness :
    (rebalance cexInsolvent).2
        = some (.inconsistency ⟨-800000000000, 9⟩ ⟨25236000000000, 11⟩) ∧
    ((rebalance cexInsolvent).1).totalRebalances = cexInsolvent.totalRebalances + 1 :=
  ⟨by decide, (rebalance_error_no_rollback cexInsolvent ⟨-800000000000, 9⟩
    ⟨25236000000000, 11⟩ (by decide)).2⟩

/- ### Claim C9: the unused balances stay non-negative -/

theorem reserveXCur_nonneg (s : Strategy) : 0 ≤ toQ (reserveXCur s) := by
  rw [reserveXCur, toQ_dSqrt9]
  exact qSqrt9_nonneg _

theorem estValueY_nonneg (s : Strategy) (hp : 0 ≤ toQ s.currentPrice) :
    0 ≤ toQ (estimatePositionValueInY s) := by
  rw [estimatePositionValueInY, toQ_dAdd, toQ_dMul, reserveYCur, toQ_dMul]
  have hx := reserveXCur_nonneg s
  have h1 := mul_nonneg hx hp
  have h2 := mul_nonneg hp hx
  linarith

theorem generateYield_nonneg (period : D) (s : Strategy)
    (hp : 0 ≤ toQ s.currentPrice) (hsup : 0 ≤ toQ s.ammSupplyInterest)
    (hper : 0 ≤ toQ period) : 0 ≤ toQ (generateYield period s) := by
  rw [generateYield, toQ_dDiv9]
  split
  · exact le_refl 0
  · apply qTrunc_nonneg
    apply div_nonneg
    · rw [toQ_dMul, toQ_dMul]
      exact mul_nonneg (mul_nonneg (estValueY_nonneg s hp) hsup) hper
    · rw [toQ_MINUTES]
      norm_num

/-- Step 1 keeps the unused balances non-negative: the withdrawn `reserveY`
excess is the (positive) deviation, and the withdrawn `reserveX` excess is
non-negative because the ideal reserve is scaled down from the current one.
The hypothesis `0 ≤ idealAmmReserveY` rules out the state in which the source
divides by a zero `reserveY` and poisons the balances with `NaN`. -/
theorem withdrawAMM_unused (s : Strategy)
    (hT : 0 ≤ toQ s.unusedTON) (hU : 0 ≤ toQ s.unusedUSDT)
    (hi : 0 ≤ toQ (idealAmmReserveY s)) :
    0 ≤ toQ (withdrawExcessesFromAMM s).unusedTON ∧
    0 ≤ toQ (withdrawExcessesFromAMM s).unusedUSDT := by
  rw [withdrawExcessesFromAMM]
  split
  · rename_i hcond
    dsimp only
    have hdY : 0 < toQ (deviationAmmReserveY s) := by
      have h := (dLt_true_iff (dInt 0) (deviationAmmReserveY s)).mp hcond
      rw [toQ_dInt] at h
      exact_mod_cast h
    have hiq : toQ (reserveYCur s) - toQ (deviationAmmReserveY s)
        = toQ (idealAmmReserveY s) := by
      rw [deviationAmmReserveY, toQ_dSub]
      ring
    have hrY : 0 < toQ (reserveYCur s) := by linarith
    have hrX := reserveXCur_nonneg s
    have hA0 : 0 ≤ toQ (reserveXCur s)
        * (toQ (reserveYCur s) - toQ (deviationAmmReserveY s)) / toQ (reserveYCur s) := by
      rw [hiq]
      exact div_nonneg (mul_nonneg hrX hi) hrY.le
    have hAle : toQ (reserveXCur s)
        * (toQ (reserveYCur s) - toQ (deviationAmmReserveY s)) / toQ (reserveYCur s)
        ≤ toQ (reserveXCur s) := by
      rw [div_le_iff₀ hrY]
      have hle : toQ (reserveYCur s) - toQ (deviationAmmReserveY s)
          ≤ toQ (reserveYCur s) := by linarith
      exact mul_le_mul_of_nonneg_left hle hrX
    have hq1 := qTrunc_le 9 _ hA0
    constructor
    · rw [toQ_dAdd, toQ_dSub, toQ_dDiv9, if_neg hrY.ne', toQ_dMul, toQ_dSub]
      linarith
    · rw [toQ_dAdd, toQ_dSub, toQ_dSub]
      linarith
  · exact ⟨hT, hU⟩

theorem withdrawColl_unused (s : Strategy)
    (hT : 0 ≤ toQ s.unusedTON) (hU : 0 ≤ toQ s.unusedUSDT) :
    0 ≤ toQ (withdrawExcessesFromLendingCollateral s).unusedTON ∧
    0 ≤ toQ (withdrawExcessesFromLendingCollateral s).unusedUSDT := by
  rw [withdrawExcessesFromLendingCollateral]
  split
  · rename_i hc
    refine ⟨hT, ?_⟩
    dsimp only
    rw [toQ_dAdd]
    have h := (dLt_true_iff (dInt 0) (deviationLendingCollateral s)).mp hc
    rw [toQ_dInt] at h
    have h0 : (0:ℚ) < toQ (deviationLendingCollateral s) := by exact_mod_cast h
    linarith
  · exact ⟨hT, hU⟩

theorem coverBorrowed_unused (s : Strategy)
    (hT : 0 ≤ toQ s.unusedTON) (hU : 0 ≤ toQ s.unusedUSDT)
    (hp : 0 < toQ s.currentPrice) (hf : toQ s.swapFee < 1) :
    0 ≤ toQ (coverOutstandingBorrowedAmount s).unusedTON ∧
    0 ≤ toQ (coverOutstandingBorrowedAmount s).unusedUSDT := by
  rw [coverOutstandingBorrowedAmount]
  split
  · exact coverTON_nonneg _ s hT hU hp hf
  · exact ⟨hT, hU⟩

theorem coverColl_unused (s : Strategy)
    (hT : 0 ≤ toQ s.unusedTON) (hU : 0 ≤ toQ s.unusedUSDT)
    (hp : 0 < toQ s.currentPrice) (hf : toQ s.swapFee < 1) :
    0 ≤ toQ (coverOutstandingCollateral s).unusedTON ∧
    0 ≤ toQ (coverOutstandingCollateral s).unusedUSDT := by
  rw [coverOutstandingCollateral]
  split
  · exact coverUSDT_nonneg _ s hT hU hp hf
  · exact ⟨hT, hU⟩

theorem borrowIdeal_unused (s : Strategy)
    (hT : 0 ≤ toQ s.unusedTON) (hU : 0 ≤ toQ s.unusedUSDT) :
    0 ≤ toQ (borrowUntilIdealSetup s).unusedTON ∧
    0 ≤ toQ (borrowUntilIdealSetup s).unusedUSDT := by
  rw [borrowUntilIdealSetup]
  split
  · refine ⟨?_, hU⟩
    dsimp only
    rw [toQ_dAdd, toQ_dAbs]
    have := abs_nonneg (toQ (deviationAmountToBorrow s))
    linarith
  · exact ⟨hT, hU⟩

theorem addLiquidityFinish_unused (s : Strategy) (rX rY outX outY : D)
    (hT : 0 ≤ toQ s.unusedTON) (hU : 0 ≤ toQ s.unusedUSDT)
    (hp : 0 < toQ s.currentPrice) (hf : toQ s.swapFee < 1) :
    0 ≤ toQ ((addLiquidityFinish s rX rY outX outY).1).unusedTON ∧
    0 ≤ toQ ((addLiquidityFinish s rX rY outX outY).1).unusedUSDT := by
  have h1 := coverTON_nonneg outX s hT hU hp hf
  have hcp : ((coverAmountWithTON outX s).2).currentPrice = s.currentPrice :=
    (coverTON_frame outX s).1
  have hsf : ((coverAmountWithTON outX s).2).swapFee = s.swapFee :=
    (coverTON_frame outX s).2.2.1
  have h2 := coverUSDT_nonneg outY ((coverAmountWithTON outX s).2) h1.1 h1.2
    (by rw [hcp]; exact hp) (by rw [hsf]; exact hf)
  rw [addLiquidityFinish]
  split
  · exact h2
  · split
    · exact h2
    · exact h2

theorem addLiquidity_unused (s : Strategy)
    (hT : 0 ≤ toQ s.unusedTON) (hU : 0 ≤ toQ s.unusedUSDT)
    (hp : 0 < toQ s.currentPrice) (hf : toQ s.swapFee < 1) :
    0 ≤ toQ ((addOutstandingLiquidityToAMM s).1).unusedTON ∧
    0 ≤ toQ ((addOutstandingLiquidityToAMM s).1).unusedUSDT := by
  rw [addOutstandingLiquidityToAMM]
  split
  · split
    · exact ⟨hT, hU⟩
    · exact ⟨hT, hU⟩
  · split
    · dsimp only
      split
      · exact addLiquidityFinish_unused s _ _ _ _ hT hU hp hf
      · exact addLiquidityFinish_unused s _ _ _ _ hT hU hp hf
    · exact ⟨hT, hU⟩

theorem runSteps_unused (s : Strategy)
    (hT : 0 ≤ toQ s.unusedTON) (hU : 0 ≤ toQ s.unusedUSDT)
    (hp : 0 < toQ s.currentPrice) (hf : toQ s.swapFee < 1)
    (hi : 0 ≤ toQ (idealAmmReserveY s)) :
    0 ≤ toQ ((runSteps s).1).unusedTON ∧ 0 ≤ toQ ((runSteps s).1).unusedUSDT := by
  rw [runSteps]
  have u1 := withdrawAMM_unused s hT hU hi
  set s1 := withdrawExcessesFromAMM s with hs1
  have c1 := withdrawAMM_config s
  have hp1 : 0 < toQ s1.currentPrice := by rw [c1.1]; exact hp
  have hf1 : toQ s1.swapFee < 1 := by rw [c1.2.2.1]; exact hf
  have u2 := withdrawColl_unused s1 u1.1 u1.2
  set s2 := withdrawExcessesFromLendingCollateral s1 with hs2
  have c2 := withdrawColl_config s1
  have hp2 : 0 < toQ s2.currentPrice := by rw [c2.1]; exact hp1
  have hf2 : toQ s2.swapFee < 1 := by rw [c2.2.2.1]; exact hf1
  have u3 := coverBorrowed_unused s2 u2.1 u2.2 hp2 hf2
  set s3 := coverOutstandingBorrowedAmount s2 with hs3
  have c3 := coverBorrowed_config s2
  have hp3 : 0 < toQ s3.currentPrice := by rw [c3.1]; exact hp2
  have hf3 : toQ s3.swapFee < 1 := by rw [c3.2.2.1]; exact hf2
  have u4 := coverColl_unused s3 u3.1 u3.2 hp3 hf3
  set s4 := coverOutstandingCollateral s3 with hs4
  have c4 := coverColl_config s3
  have hp4 : 0 < toQ s4.currentPrice := by rw [c4.1]; exact hp3
  have hf4 : toQ s4.swapFee < 1 := by rw [c4.2.2.1]; exact hf3
  have u5 := borrowIdeal_unused s4 u4.1 u4.2
  set s5 := borrowUntilIdealSetup s4 with hs5
  have c5 := borrowIdeal_config s4
  have hp5 : 0 < toQ s5.currentPrice := by rw [c5.1]; exact hp4
  have hf5 : toQ s5.swapFee < 1 := by rw [c5.2.2.1]; exact hf4
  exact addLiquidity_unused s5 u5.1 u5.2 hp5 hf5

theorem rebalance_unused (s : Strategy)
    (hT : 0 ≤ toQ s.unusedTON) (hU : 0 ≤ toQ s.unusedUSDT)
    (hp : 0 < toQ s.currentPrice) (hf : toQ s.swapFee < 1)
    (hi : 0 ≤ toQ (idealAmmReserveY s)) :
    0 ≤ toQ ((rebalance s).1).unusedTON ∧ 0 ≤ toQ ((rebalance s).1).unusedUSDT := by
  have hr := runSteps_unused s hT hU hp hf hi
  cases hb : (runSteps s).2.isSome
  · rw [rebalance_fst_ok s hb]
    exact hr
  · rw [rebalance_of_stepError s hb]
    exact hr

/-- The state `nextPrice` hands to the rebalance decision: new price stored,
interest accrued, AMM yield added to `unusedUSDT` (the source's `s3`). -/
def postAccrualState (np : D) (s : Strategy) : Strategy :=
  let s1 := setPrice np s
  let r2 := accrueInterest s1.interestPeriod s1
  { r2.1 with
    unusedUSDT := dAdd (r2.1).unusedUSDT (generateYield (r2.1).interestPeriod r2.1) }

theorem nextPrice_unused (np : D) (s : Strategy)
    (hT : 0 ≤ toQ s.unusedTON) (hU : 0 ≤ toQ s.unusedUSDT)
    (hnp : 0 < toQ np) (hf : toQ s.swapFee < 1)
    (hsup : 0 ≤ toQ s.ammSupplyInterest) (hper : 0 ≤ toQ s.interestPeriod)
    (hi3 : 0 ≤ toQ (idealAmmReserveY (postAccrualState np s))) :
    0 ≤ toQ ((nextPrice np s).1).unusedTON ∧
    0 ≤ toQ ((nextPrice np s).1).unusedUSDT := by
  have hT3 : 0 ≤ toQ (postAccrualState np s).unusedTON := by
    show 0 ≤ toQ ((accrueInterest (setPrice np s).interestPeriod (setPrice np s)).1).unusedTON
    rw [accrue_state]
    exact hT
  have hpt : 0 ≤ toQ
      ((accrueInterest (setPrice np s).interestPeriod (setPrice np s)).1).currentPrice := by
    rw [accrue_state]
    exact hnp.le
  have hsupt : 0 ≤ toQ
      ((accrueInterest (setPrice np s).interestPeriod (setPrice np s)).1).ammSupplyInterest := by
    rw [accrue_state]
    exact hsup
  have hpert : 0 ≤ toQ
      ((accrueInterest (setPrice np s).interestPeriod (setPrice np s)).1).interestPeriod := by
    rw [accrue_state]
    exact hper
  have hU3 : 0 ≤ toQ (postAccrualState np s).unusedUSDT := by
    show 0 ≤ toQ (dAdd
      ((accrueInterest (setPrice np s).interestPeriod (setPrice np s)).1).unusedUSDT
      (generateYield
        ((accrueInterest (setPrice np s).interestPeriod (setPrice np s)).1).interestPeriod
        ((accrueInterest (setPrice np s).interestPeriod (setPrice np s)).1)))
    rw [toQ_dAdd]
    have hy := generateYield_nonneg
      ((accrueInterest (setPrice np s).interestPeriod (setPrice np s)).1).interestPeriod
      ((accrueInterest (setPrice np s).interestPeriod (setPrice np s)).1) hpt hsupt hpert
    have hUt : 0 ≤ toQ
        ((accrueInterest (setPrice np s).interestPeriod (setPrice np s)).1).unusedUSDT := by
      rw [accrue_state]
      exact hU
    linarith
  have hp3 : 0 < toQ (postAccrualState np s).currentPrice := by
    show 0 < toQ ((accrueInterest (setPrice np s).interestPeriod (setPrice np s)).1).currentPrice
    rw [accrue_state]
    exact hnp
  have hf3 : toQ (postAccrualState np s).swapFee < 1 := by
    show toQ ((accrueInterest (setPrice np s).interestPeriod (setPrice np s)).1).swapFee < 1
    rw [accrue_state]
    exact hf
  have hreb := rebalance_unused (postAccrualState np s) hT3 hU3 hp3 hf3 hi3
  rw [nextPrice]
  split
  · constructor
    · show 0 ≤ toQ
        ((accrueInterest (setPrice np s).interestPeriod (setPrice np s)).1).unusedTON
      rw [accrue_state]
      exact hT
    · show 0 ≤ toQ
        ((accrueInterest (setPrice np s).interestPeriod (setPrice np s)).1).unusedUSDT
      rw [accrue_state]
      exact hU
  · dsimp only
    split
    · split
      · exact hreb
      · exact hreb
    · exact ⟨hT3, hU3⟩

/-- C9: `unusedTON ≥ 0` and `unusedUSDT ≥ 0` hold after construction and are
preserved by every operation — both cover functions, each of the six rebalance
steps, the full rebalance, and `nextPrice` — under a valid configuration
(fee below 1, positive prices, non-negative supply rate and period) and a
non-negative ideal AMM reserve, which excludes the poisoned `NaN` division of
`withdrawExcessesFromAMM` at a zero reserve (for `nextPrice` the same
non-negativity is required of the post-accrual state it rebalances). -/
theorem unused_nonneg_spec (s : Strategy) (a np u r asup bi si lt p0 fe ip : D)
    (hT : 0 ≤ toQ s.unusedTON) (hU : 0 ≤ toQ s.unusedUSDT)
    (hp : 0 < toQ s.currentPrice) (hf : toQ s.swapFee < 1)
    (hi : 0 ≤ toQ (idealAmmReserveY s))
    (hnp : 0 < toQ np) (hsup : 0 ≤ toQ s.ammSupplyInterest)
    (hper : 0 ≤ toQ s.interestPeriod) :
    (0 ≤ toQ (mkStrategy u r asup bi si lt p0 fe ip).unusedTON ∧
     0 ≤ toQ (mkStrategy u r asup bi si lt p0 fe ip).unusedUSDT) ∧
    (0 ≤ toQ ((coverAmountWithUSDT a s).2).unusedTON ∧
     0 ≤ toQ ((coverAmountWithUSDT a s).2).unusedUSDT) ∧
    (0 ≤ toQ ((coverAmountWithTON a s).2).unusedTON ∧
     0 ≤ toQ ((coverAmountWithTON a s).2).unusedUSDT) ∧
    (0 ≤ toQ (withdrawExcessesFromAMM s).unusedTON ∧
     0 ≤ toQ (withdrawExcessesFromAMM s).unusedUSDT) ∧
    (0 ≤ toQ (withdrawExcessesFromLendingCollateral s).unusedTON ∧
     0 ≤ toQ (withdrawExcessesFromLendingCollateral s).unusedUSDT) ∧
    (0 ≤ toQ (coverOutstandingBorrowedAmount s).unusedTON ∧
     0 ≤ toQ (coverOutstandingBorrowedAmount s).unusedUSDT) ∧
    (0 ≤ toQ (coverOutstandingCollateral s).unusedTON ∧
     0 ≤ toQ (coverOutstandingCollateral s).unusedUSDT) ∧
    (0 ≤ toQ (borrowUntilIdealSetup s).unusedTON ∧
     0 ≤ toQ (borrowUntilIdealSetup s).unusedUSDT) ∧
    (0 ≤ toQ ((addOutstandingLiquidityToAMM s).1).unusedTON ∧
     0 ≤ toQ ((addOutstandingLiquidityToAMM s).1).unusedUSDT) ∧
    (0 ≤ toQ ((rebalance s).1).unusedTON ∧
     0 ≤ toQ ((rebalance s).1).unusedUSDT) ∧
    (0 ≤ toQ (idealAmmReserveY (postAccrualState np s)) →
      0 ≤ toQ ((nextPrice np s).1).unusedTON ∧
      0 ≤ toQ ((nextPrice np s).1).unusedUSDT) :=
  ⟨⟨le_of_eq toQ_zero.symm, le_of_eq toQ_zero.symm⟩,
   coverUSDT_nonneg a s hT hU hp hf,
   coverTON_nonneg a s hT hU hp hf,
   withdrawAMM_unused s hT hU hi,
   withdrawColl_unused s hT hU,
   coverBorrowed_unused s hT hU hp hf,
   coverColl_unused s hT hU hp hf,
   borrowIdeal_unused s hT hU,
   addLiquidity_unused s hT hU hp hf,
   rebalance_unused s hT hU hp hf hi,
   fun hi3 => nextPrice_unused np s hT hU hnp hf hsup hper hi3⟩

/-- Witness for `unused_nonneg_spec` at the freshly constructed strategy of
the simulation (1,000,000 USDT, ratio 0.33, price 2): after `rebalance` both
unused balances are still non-negative. -/
theorem unused_nonneg_spec_witness :
    0 ≤ toQ ((rebalance S0c).1).unusedTON ∧
    0 ≤ toQ ((rebalance S0c).1).unusedUSDT :=
  (unused_nonneg_spec S0c ⟨1, 0⟩ ⟨1, 0⟩ ⟨1000000, 0⟩ ⟨33, 2⟩ ⟨2, 1⟩ ⟨2, 2⟩ ⟨8, 2⟩
    ⟨125, 2⟩ ⟨2, 0⟩ ⟨1, 2⟩ ⟨5, 0⟩
    ((toQ_nonneg_iff _).mpr (by decide))
    ((toQ_nonneg_iff _).mpr (by decide))
    ((toQ_pos_iff _).mpr (by decide))
    (by
      have h := (dLt_true_iff S0c.swapFee (dInt 1)).mp (by decide)
      rwa [toQ_one] at h)
    ((toQ_nonneg_iff _).mpr (by decide))
    ((toQ_pos_iff _).mpr (by decide))
    ((toQ_nonneg_iff _).mpr (by decide))
    ((toQ_nonneg_iff _).mpr (by decide))).2.2.2.2.2.2.2.2.2.1

/- ### Claim C1: the six steps never create value -/

theorem natDiv9_le_qTrunc (n : ℕ) (x : ℚ) (h : ((n : ℚ)) / 10 ^ 9 ≤ x) :
    ((n : ℚ)) / 10 ^ 9 ≤ qTrunc 9 x := by
  have h1 : ((n : ℚ)) ≤ x * 10 ^ 9 := by
    rw [div_le_iff₀ (by positivity : (0:ℚ) < 10 ^ 9)] at h
    exact h
  have hx : 0 ≤ x := le_trans (by positivity) h
  have h2 : (n : ℤ) ≤ ⌊x * 10 ^ 9⌋ := Int.le_floor.mpr (by exact_mod_cast h1)
  have h3 : ((n : ℚ)) ≤ ((⌊x * 10 ^ 9⌋ : ℤ) : ℚ) := by exact_mod_cast h2
  rw [qTrunc, qtruncZ, if_pos (mul_nonneg hx (by positivity : (0:ℚ) ≤ 10 ^ 9))]
  have h4 := mul_le_mul_of_nonneg_right h3 (by positivity : (0:ℚ) ≤ ((10:ℚ) ^ 9)⁻¹)
  simpa [div_eq_mul_inv] using h4

/-- A 9-decimal-place square root below `x` is also below the 9-decimal-place
truncation of `x`. -/
theorem qSqrt9_le_qTrunc (y x : ℚ) (h : qSqrt9 y ≤ x) : qSqrt9 y ≤ qTrunc 9 x := by
  by_cases hy : y < 0
  · rw [qSqrt9, if_pos hy] at h ⊢
    exact qTrunc_nonneg 9 x h
  · rw [qSqrt9, if_neg hy] at h ⊢
    exact natDiv9_le_qTrunc _ x h

/-- The covered amount returned by `coverAmountWithTON` is non-negative for a
non-negative request. -/
theorem coverTON_result_nonneg (a : D) (s : Strategy) (ha : 0 ≤ toQ a)
    (hT : 0 ≤ toQ s.unusedTON) (hU : 0 ≤ toQ s.unusedUSDT)
    (hp : 0 < toQ s.currentPrice) (hf0 : 0 ≤ toQ s.swapFee) (hf : toQ s.swapFee < 1) :
    0 ≤ toQ (coverAmountWithTON a s).1 := by
  obtain ⟨_, _, h3⟩ := coverTON_state a s hp.ne' (by intro h; linarith)
  rw [h3]
  have hb := tonSwapBound_nonneg a s hp hf
  have hu : 0 ≤ min (toQ s.unusedUSDT) (tonSwapBound a s) := le_min hU hb
  have hm : 0 ≤ min (toQ s.unusedTON) (toQ a) := le_min hT ha
  have harg : 0 ≤ min (toQ s.unusedUSDT) (tonSwapBound a s)
      * (1 - toQ s.swapFee) / toQ s.currentPrice :=
    div_nonneg (mul_nonneg hu (by linarith)) hp.le
  have := qTrunc_nonneg 9 _ harg
  linarith

/-- The total strategy value, expanded over `ℚ`. -/
theorem estTotal_eq (t : Strategy) (hp : ¬ toQ t.currentPrice = 0) :
    toQ (estimateTotalStrategyValue t)
      = (toQ t.collateral - toQ t.debt * toQ t.currentPrice)
        + 2 * (toQ t.currentPrice
            * qSqrt9 (qTrunc 9 (toQ t.initialReserveX * toQ t.initialReserveY
                / toQ t.currentPrice)))
        + (toQ t.unusedTON * toQ t.currentPrice + toQ t.unusedUSDT) := by
  simp only [estimateTotalStrategyValue, estimatePositionValue, getDebtValue,
    estimatePositionValueInY, reserveYCur, reserveXCur, estimateUnusedFundsValue,
    toQ_dAdd, toQ_dSub, toQ_dMul, toQ_dSqrt9, toQ_dDiv9, if_neg hp]
  ring

/-- The total strategy value of a state with replaced anchors and unused
balances. -/
theorem estTotal_anchors (t : Strategy) (aX aY tT tU : D)
    (hp : ¬ toQ t.currentPrice = 0) :
    toQ (estimateTotalStrategyValue { t with initialReserveX := aX, initialReserveY := aY, unusedTON := tT, unusedUSDT := tU })
      = (toQ t.collateral - toQ t.debt * toQ t.currentPrice)
        + 2 * (toQ t.currentPrice
            * qSqrt9 (qTrunc 9 (toQ aX * toQ aY / toQ t.currentPrice)))
        + (toQ tT * toQ t.currentPrice + toQ tU) := by
  simp only [estimateTotalStrategyValue, estimatePositionValue, getDebtValue,
    estimatePositionValueInY, reserveYCur, reserveXCur, estimateUnusedFundsValue,
    toQ_dAdd, toQ_dSub, toQ_dMul, toQ_dSqrt9, toQ_dDiv9, if_neg hp]
  ring

/-- Step 2 moves collateral to `unusedUSDT` one-for-one: the total value is
unchanged. -/
theorem withdrawColl_value (s : Strategy) :
    toQ (estimateTotalStrategyValue (withdrawExcessesFromLendingCollateral s))
      = toQ (estimateTotalStrategyValue s) := by
  rw [withdrawExcessesFromLendingCollateral]
  split
  · simp only [estimateTotalStrategyValue, estimatePositionValue, getDebtValue,
      estimatePositionValueInY, reserveYCur, reserveXCur, estimateUnusedFundsValue,
      toQ_dAdd, toQ_dSub, toQ_dMul]
    ring
  · rfl

/-- Step 5 adds the borrowed TON to `unusedTON` and to the debt: the total
value is unchanged. -/
theorem borrowIdeal_value (s : Strategy) :
    toQ (estimateTotalStrategyValue (borrowUntilIdealSetup s))
      = toQ (estimateTotalStrategyValue s) := by
  rw [borrowUntilIdealSetup]
  split
  · simp only [estimateTotalStrategyValue, estimatePositionValue, getDebtValue,
      estimatePositionValueInY, reserveYCur, reserveXCur, estimateUnusedFundsValue,
      toQ_dAdd, toQ_dSub, toQ_dMul]
    ring
  · rfl

/-- Step 3 repays debt with covered TON: the swap fee makes the total value
non-increasing. -/
theorem coverBorrowed_value (s : Strategy)
    (hT : 0 ≤ toQ s.unusedTON) (hU : 0 ≤ toQ s.unusedUSDT)
    (hp : 0 < toQ s.currentPrice) (hf0 : 0 ≤ toQ s.swapFee) (hf : toQ s.swapFee < 1) :
    toQ (estimateTotalStrategyValue (coverOutstandingBorrowedAmount s))
      ≤ toQ (estimateTotalStrategyValue s) := by
  rw [coverOutstandingBorrowedAmount]
  split
  · have hval := coverTON_value (dAbs (deviationAmountToBorrow s)) s hT hU hp hf0 hf
    obtain ⟨f1, f2, f3, f4, f5, f6, f7, f8, f9, f10, f11, f12, f13, f14⟩ :=
      coverTON_frame (dAbs (deviationAmountToBorrow s)) s
    simp only [estimateTotalStrategyValue, estimatePositionValue, getDebtValue,
      estimatePositionValueInY, reserveYCur, reserveXCur, estimateUnusedFundsValue,
      toQ_dAdd, toQ_dSub, toQ_dMul, f1, f11, f12, f13, f14]
    linarith
  · exact le_refl _

/-- Step 4 tops collateral up with covered USDT: the swap fee makes the total
value non-increasing. -/
theorem coverColl_value (s : Strategy)
    (hT : 0 ≤ toQ s.unusedTON) (hU : 0 ≤ toQ s.unusedUSDT)
    (hp : 0 < toQ s.currentPrice) (hf0 : 0 ≤ toQ s.swapFee) (hf : toQ s.swapFee < 1) :
    toQ (estimateTotalStrategyValue (coverOutstandingCollateral s))
      ≤ toQ (estimateTotalStrategyValue s) := by
  rw [coverOutstandingCollateral]
  split
  · have hval := coverUSDT_value (dAbs (deviationLendingCollateral s)) s hT hU hp hf0 hf
    obtain ⟨f1, f2, f3, f4, f5, f6, f7, f8, f9, f10, f11, f12, f13, f14⟩ :=
      coverUSDT_frame (dAbs (deviationLendingCollateral s)) s
    simp only [estimateTotalStrategyValue, estimatePositionValue, getDebtValue,
      estimatePositionValueInY, reserveYCur, reserveXCur, estimateUnusedFundsValue,
      toQ_dAdd, toQ_dSub, toQ_dMul, f1, f11, f12, f13, f14]
    linarith
  · exact le_refl _

/-- Step 1 withdraws the excess reserves into the unused balances; the
re-anchored AMM position is worth at most the ideal reserves by AM-GM, so the
total value never increases. -/
theorem withdrawAMM_value (s : Strategy) (hp : 0 < toQ s.currentPrice)
    (hi : 0 ≤ toQ (idealAmmReserveY s)) :
    toQ (estimateTotalStrategyValue (withdrawExcessesFromAMM s))
      ≤ toQ (estimateTotalStrategyValue s) := by
  rw [withdrawExcessesFromAMM]
  split
  · rename_i hcond
    dsimp only
    have hpne : ¬ toQ s.currentPrice = 0 := hp.ne'
    have hdY : 0 < toQ (deviationAmmReserveY s) := by
      have h := (dLt_true_iff (dInt 0) (deviationAmmReserveY s)).mp hcond
      rw [toQ_dInt] at h
      exact_mod_cast h
    have hBi : toQ (deviationAmmReserveY s)
        = toQ (reserveYCur s) - toQ (idealAmmReserveY s) := by
      rw [deviationAmmReserveY, toQ_dSub]
    have hB : 0 < toQ (reserveYCur s) := by linarith
    have hBne : ¬ toQ (reserveYCur s) = 0 := hB.ne'
    have hA : 0 ≤ toQ (reserveXCur s) := reserveXCur_nonneg s
    have hrXq : toQ (reserveXCur s)
        = qSqrt9 (qTrunc 9 (toQ s.initialReserveX * toQ s.initialReserveY
            / toQ s.currentPrice)) := by
      rw [reserveXCur, toQ_dSqrt9, toQ_dDiv9, if_neg hpne, toQ_dMul]
    have hBA : toQ (reserveYCur s) = toQ s.currentPrice * toQ (reserveXCur s) := by
      rw [reserveYCur, toQ_dMul]
    rw [estTotal_anchors s _ _ _ _ hpne, estTotal_eq s hpne, ← hrXq]
    simp only [toQ_dAdd, toQ_dSub, toQ_dDiv9, toQ_dMul, if_neg hBne]
    have hIpos : 0 ≤ toQ (reserveYCur s) - toQ (deviationAmmReserveY s) := by linarith
    have haq0 : 0 ≤ qTrunc 9 (toQ (reserveXCur s)
        * (toQ (reserveYCur s) - toQ (deviationAmmReserveY s)) / toQ (reserveYCur s)) :=
      qTrunc_nonneg 9 _ (div_nonneg (mul_nonneg hA hIpos) hB.le)
    have haqA : qTrunc 9 (toQ (reserveXCur s)
        * (toQ (reserveYCur s) - toQ (deviationAmmReserveY s)) / toQ (reserveYCur s))
        ≤ toQ (reserveXCur s) := by
      refine le_trans (qTrunc_le 9 _ (div_nonneg (mul_nonneg hA hIpos) hB.le)) ?_
      rw [div_le_iff₀ hB]
      exact mul_le_mul_of_nonneg_left (by linarith) hA
    have harg : 0 ≤ qTrunc 9 (toQ (reserveXCur s)
        * (toQ (reserveYCur s) - toQ (deviationAmmReserveY s)) / toQ (reserveYCur s))
        * (toQ (reserveYCur s) - toQ (deviationAmmReserveY s)) / toQ s.currentPrice :=
      div_nonneg (mul_nonneg haq0 hIpos) hp.le
    have hx20 : 0 ≤ qSqrt9 (qTrunc 9 (qTrunc 9 (toQ (reserveXCur s)
        * (toQ (reserveYCur s) - toQ (deviationAmmReserveY s)) / toQ (reserveYCur s))
        * (toQ (reserveYCur s) - toQ (deviationAmmReserveY s)) / toQ s.currentPrice)) :=
      qSqrt9_nonneg _
    have hkey : toQ s.currentPrice * qSqrt9 (qTrunc 9 (qTrunc 9 (toQ (reserveXCur s)
        * (toQ (reserveYCur s) - toQ (deviationAmmReserveY s)) / toQ (reserveYCur s))
        * (toQ (reserveYCur s) - toQ (deviationAmmReserveY s)) / toQ s.currentPrice)) ^ 2
        ≤ qTrunc 9 (toQ (reserveXCur s)
            * (toQ (reserveYCur s) - toQ (deviationAmmReserveY s)) / toQ (reserveYCur s))
          * (toQ (reserveYCur s) - toQ (deviationAmmReserveY s)) := by
      have h2 := qSqrt9_sq_le _ (qTrunc_nonneg 9 _ harg)
      have h3 := qTrunc_le 9 _ harg
      have h4 := le_trans h2 h3
      have h5 := mul_le_mul_of_nonneg_left h4 hp.le
      have h6 : toQ s.currentPrice * (qTrunc 9 (toQ (reserveXCur s)
          * (toQ (reserveYCur s) - toQ (deviationAmmReserveY s)) / toQ (reserveYCur s))
          * (toQ (reserveYCur s) - toQ (deviationAmmReserveY s)) / toQ s.currentPrice)
          = qTrunc 9 (toQ (reserveXCur s)
              * (toQ (reserveYCur s) - toQ (deviationAmmReserveY s)) / toQ (reserveYCur s))
            * (toQ (reserveYCur s) - toQ (deviationAmmReserveY s)) := by
        field_simp
      rw [h6] at h5
      exact h5
    have hAM := amgm2 (toQ s.currentPrice)
      (qTrunc 9 (toQ (reserveXCur s)
        * (toQ (reserveYCur s) - toQ (deviationAmmReserveY s)) / toQ (reserveYCur s)))
      (toQ (reserveYCur s) - toQ (deviationAmmReserveY s))
      (qSqrt9 (qTrunc 9 (qTrunc 9 (toQ (reserveXCur s)
        * (toQ (reserveYCur s) - toQ (deviationAmmReserveY s)) / toQ (reserveYCur s))
        * (toQ (reserveYCur s) - toQ (deviationAmmReserveY s)) / toQ s.currentPrice)))
      hp haq0 hIpos hx20 hkey
    ring_nf at hAM hBA ⊢
    linarith [hAM, hBA]
  · exact le_refl _

/-- The liquidity-adding tail of step 6: covering the two outflows and
re-anchoring at `(rX + availableX, rY + availableY)` never increases the total
value (AM-GM on the re-anchored position plus the cover conservation). -/
theorem addLiqFinish_value (s : Strategy) (outX outY : D)
    (hT : 0 ≤ toQ s.unusedTON) (hU : 0 ≤ toQ s.unusedUSDT)
    (hp : 0 < toQ s.currentPrice) (hf0 : 0 ≤ toQ s.swapFee) (hf : toQ s.swapFee < 1)
    (houtX : 0 ≤ toQ outX) (houtY : 0 ≤ toQ outY) :
    (addLiquidityFinish s (reserveXCur s) (reserveYCur s) outX outY).2 = none →
    toQ (estimateTotalStrategyValue
      ((addLiquidityFinish s (reserveXCur s) (reserveYCur s) outX outY).1))
      ≤ toQ (estimateTotalStrategyValue s) := by
  have hpne : ¬ toQ s.currentPrice = 0 := hp.ne'
  have hA : 0 ≤ toQ (reserveXCur s) := reserveXCur_nonneg s
  have hrXq : toQ (reserveXCur s)
      = qSqrt9 (qTrunc 9 (toQ s.initialReserveX * toQ s.initialReserveY
          / toQ s.currentPrice)) := by
    rw [reserveXCur, toQ_dSqrt9, toQ_dDiv9, if_neg hpne, toQ_dMul]
  have hBA : toQ (reserveYCur s) = toQ s.currentPrice * toQ (reserveXCur s) := by
    rw [reserveYCur, toQ_dMul]
  have haX : 0 ≤ toQ (coverAmountWithTON outX s).1 :=
    coverTON_result_nonneg outX s houtX hT hU hp hf0 hf
  have h1 := coverTON_nonneg outX s hT hU hp hf
  have fT := coverTON_frame outX s
  have hp1 : 0 < toQ ((coverAmountWithTON outX s).2).currentPrice := by
    rw [fT.1]; exact hp
  have hf01 : 0 ≤ toQ ((coverAmountWithTON outX s).2).swapFee := by
    rw [fT.2.2.1]; exact hf0
  have hf1 : toQ ((coverAmountWithTON outX s).2).swapFee < 1 := by
    rw [fT.2.2.1]; exact hf
  have haY : 0 ≤ toQ (coverAmountWithUSDT outY (coverAmountWithTON outX s).2).1 :=
    coverUSDT_result_nonneg outY ((coverAmountWithTON outX s).2) houtY h1.1 h1.2
      hp1 hf01 hf1
  have hvT := coverTON_value outX s hT hU hp hf0 hf
  have hvU := coverUSDT_value outY ((coverAmountWithTON outX s).2) h1.1 h1.2 hp1 hf01 hf1
  rw [fT.1] at hvU
  have fU := coverUSDT_frame outY ((coverAmountWithTON outX s).2)
  have hc1 : ((coverAmountWithUSDT outY (coverAmountWithTON outX s).2).2).currentPrice
      = s.currentPrice := fU.1.trans fT.1
  have hc11 : ((coverAmountWithUSDT outY (coverAmountWithTON outX s).2).2).collateral
      = s.collateral := (fU.2.2.2.2.2.2.2.2.2.2.1).trans (fT.2.2.2.2.2.2.2.2.2.2.1)
  have hc12 : ((coverAmountWithUSDT outY (coverAmountWithTON outX s).2).2).debt
      = s.debt := (fU.2.2.2.2.2.2.2.2.2.2.2.1).trans (fT.2.2.2.2.2.2.2.2.2.2.2.1)
  have hpne2 : ¬ toQ ((coverAmountWithUSDT outY
      (coverAmountWithTON outX s).2).2).currentPrice = 0 := by
    rw [hc1]; exact hpne
  rw [addLiquidityFinish]
  split
  · intro h
    simp at h
  · split
    · intro _
      rw [estTotal_anchors ((coverAmountWithUSDT outY (coverAmountWithTON outX s).2).2)
        (dAdd (reserveXCur s) (coverAmountWithTON outX s).1)
        (dAdd (reserveYCur s) (coverAmountWithUSDT outY (coverAmountWithTON outX s).2).1)
        ((coverAmountWithUSDT outY (coverAmountWithTON outX s).2).2).unusedTON
        ((coverAmountWithUSDT outY (coverAmountWithTON outX s).2).2).unusedUSDT hpne2,
        estTotal_eq s hpne, ← hrXq, hc1, hc11, hc12]
      simp only [toQ_dAdd]
      have hBge : 0 ≤ toQ (reserveYCur s) := by
        rw [hBA]; exact mul_nonneg hp.le hA
      have ha : 0 ≤ toQ (reserveXCur s) + toQ (coverAmountWithTON outX s).1 := by
        linarith
      have hb : 0 ≤ toQ (reserveYCur s)
          + toQ (coverAmountWithUSDT outY (coverAmountWithTON outX s).2).1 := by
        linarith
      have harg : 0 ≤ (toQ (reserveXCur s) + toQ (coverAmountWithTON outX s).1)
          * (toQ (reserveYCur s)
            + toQ (coverAmountWithUSDT outY (coverAmountWithTON outX s).2).1)
          / toQ s.currentPrice := div_nonneg (mul_nonneg ha hb) hp.le
      have hkey : toQ s.currentPrice * qSqrt9 (qTrunc 9
          ((toQ (reserveXCur s) + toQ (coverAmountWithTON outX s).1)
            * (toQ (reserveYCur s)
              + toQ (coverAmountWithUSDT outY (coverAmountWithTON outX s).2).1)
            / toQ s.currentPrice)) ^ 2
          ≤ (toQ (reserveXCur s) + toQ (coverAmountWithTON outX s).1)
            * (toQ (reserveYCur s)
              + toQ (coverAmountWithUSDT outY (coverAmountWithTON outX s).2).1) := by
        have h2 := qSqrt9_sq_le _ (qTrunc_nonneg 9 _ harg)
        have h3 := qTrunc_le 9 _ harg
        have h5 := mul_le_mul_of_nonneg_left (le_trans h2 h3) hp.le
        have h6 : toQ s.currentPrice
            * ((toQ (reserveXCur s) + toQ (coverAmountWithTON outX s).1)
              * (toQ (reserveYCur s)
                + toQ (coverAmountWithUSDT outY (coverAmountWithTON outX s).2).1)
              / toQ s.currentPrice)
            = (toQ (reserveXCur s) + toQ (coverAmountWithTON outX s).1)
              * (toQ (reserveYCur s)
                + toQ (coverAmountWithUSDT outY (coverAmountWithTON outX s).2).1) := by
          field_simp
        rw [h6] at h5
        exact h5
      have hAM := amgm2 (toQ s.currentPrice)
        (toQ (reserveXCur s) + toQ (coverAmountWithTON outX s).1)
        (toQ (reserveYCur s)
          + toQ (coverAmountWithUSDT outY (coverAmountWithTON outX s).2).1)
        (qSqrt9 (qTrunc 9 ((toQ (reserveXCur s) + toQ (coverAmountWithTON outX s).1)
          * (toQ (reserveYCur s)
            + toQ (coverAmountWithUSDT outY (coverAmountWithTON outX s).2).1)
          / toQ s.currentPrice)))
        hp ha hb (qSqrt9_nonneg _) hkey
      ring_nf at hAM hBA hvT hvU ⊢
      linarith [hAM, hBA, hvT, hvU]
    · intro h
      simp at h

/-- Step 6 never increases the total value when it completes without an
error. -/
theorem addLiquidity_value (s : Strategy)
    (hT : 0 ≤ toQ s.unusedTON) (hU : 0 ≤ toQ s.unusedUSDT)
    (hp : 0 < toQ s.currentPrice) (hf0 : 0 ≤ toQ s.swapFee) (hf : toQ s.swapFee < 1) :
    (addOutstandingLiquidityToAMM s).2 = none →
    toQ (estimateTotalStrategyValue ((addOutstandingLiquidityToAMM s).1))
      ≤ toQ (estimateTotalStrategyValue s) := by
  rw [addOutstandingLiquidityToAMM]
  split
  · split
    · intro h
      simp at h
    · intro _
      exact le_refl _
  · rename_i hm
    split
    · rename_i hguard
      dsimp only
      have hpne : ¬ toQ s.currentPrice = 0 := hp.ne'
      have hA : 0 ≤ toQ (reserveXCur s) := reserveXCur_nonneg s
      have hrXq : toQ (reserveXCur s)
          = qSqrt9 (qTrunc 9 (toQ s.initialReserveX * toQ s.initialReserveY
              / toQ s.currentPrice)) := by
        rw [reserveXCur, toQ_dSqrt9, toQ_dDiv9, if_neg hpne, toQ_dMul]
      have hBA : toQ (reserveYCur s) = toQ s.currentPrice * toQ (reserveXCur s) := by
        rw [reserveYCur, toQ_dMul]
      have hBne : ¬ toQ (reserveYCur s) = 0 := fun h => hm ((toQ_eq_zero_iff _).mp h)
      have hBge : 0 ≤ toQ (reserveYCur s) := by
        rw [hBA]; exact mul_nonneg hp.le hA
      have hB : 0 < toQ (reserveYCur s) := lt_of_le_of_ne hBge (Ne.symm hBne)
      have hdY : toQ (deviationAmmReserveY s) < 0 := by
        have h := (dLt_true_iff (dDiv9 (deviationAmmReserveY s) (reserveYCur s))
          (⟨-5, 2⟩ : D)).mp hguard
        rw [toQ_dDiv9, if_neg hBne] at h
        have hc : toQ (⟨-5, 2⟩ : D) = -5 / 100 := by norm_num [toQ]
        rw [hc] at h
        by_contra hcon
        push_neg at hcon
        have := qTrunc_nonneg 9 _ (div_nonneg hcon hB.le)
        linarith
      have houtY0 : 0 ≤ toQ (dSub (dSub (reserveYCur s) (deviationAmmReserveY s))
          (reserveYCur s)) := by
        rw [toQ_dSub, toQ_dSub]
        linarith
      have houtX0 : 0 ≤ toQ (dSub (dDiv9 (dMul (reserveXCur s)
          (dSub (reserveYCur s) (deviationAmmReserveY s))) (reserveYCur s))
          (reserveXCur s)) := by
        rw [toQ_dSub, toQ_dDiv9, if_neg hBne, toQ_dMul, toQ_dSub]
        have hstep : toQ (reserveXCur s) ≤ toQ (reserveXCur s)
            * (toQ (reserveYCur s) - toQ (deviationAmmReserveY s))
            / toQ (reserveYCur s) := by
          rw [le_div_iff₀ hB]
          have := mul_le_mul_of_nonneg_left
            (by linarith : toQ (reserveYCur s)
              ≤ toQ (reserveYCur s) - toQ (deviationAmmReserveY s)) hA
          linarith
        have hstep2 : qSqrt9 (qTrunc 9 (toQ s.initialReserveX * toQ s.initialReserveY
            / toQ s.currentPrice)) ≤ toQ (reserveXCur s)
            * (toQ (reserveYCur s) - toQ (deviationAmmReserveY s))
            / toQ (reserveYCur s) := by
          rw [← hrXq]
          exact hstep
        have hq := qSqrt9_le_qTrunc _ _ hstep2
        rw [← hrXq] at hq
        linarith
      have hTU : 0 ≤ toQ (dMul (estimateUnusedFundsValue s) (dSub (dInt 1) s.swapFee)) := by
        rw [toQ_dMul, estimateUnusedFundsValue, toQ_dAdd, toQ_dMul, toQ_dSub, toQ_one]
        exact mul_nonneg (add_nonneg (mul_nonneg hT hp.le) hU) (by linarith)
      have hTO : 0 ≤ toQ (dAdd (dMul (dSub (dDiv9 (dMul (reserveXCur s)
          (dSub (reserveYCur s) (deviationAmmReserveY s))) (reserveYCur s))
          (reserveXCur s)) s.currentPrice)
          (dSub (dSub (reserveYCur s) (deviationAmmReserveY s)) (reserveYCur s))) := by
        rw [toQ_dAdd, toQ_dMul]
        exact add_nonneg (mul_nonneg houtX0 hp.le) houtY0
      have hr0 : 0 ≤ toQ (dDiv9 (dMul (estimateUnusedFundsValue s)
          (dSub (dInt 1) s.swapFee))
          (dAdd (dMul (dSub (dDiv9 (dMul (reserveXCur s)
            (dSub (reserveYCur s) (deviationAmmReserveY s))) (reserveYCur s))
            (reserveXCur s)) s.currentPrice)
            (dSub (dSub (reserveYCur s) (deviationAmmReserveY s)) (reserveYCur s)))) := by
        rw [toQ_dDiv9]
        split
        · exact le_refl 0
        · exact qTrunc_nonneg 9 _ (div_nonneg hTU hTO)
      split
      · exact addLiqFinish_value s _ _ hT hU hp hf0 hf
          (by rw [toQ_dMul]; exact mul_nonneg houtX0 hr0)
          (by rw [toQ_dMul]; exact mul_nonneg houtY0 hr0)
      · exact addLiqFinish_value s _ _ hT hU hp hf0 hf houtX0 houtY0
    · intro _
      exact le_refl _

/-- The six steps in sequence never increase the total value when they
complete without an error. -/
theorem runSteps_value (s : Strategy)
    (hT : 0 ≤ toQ s.unusedTON) (hU : 0 ≤ toQ s.unusedUSDT)
    (hp : 0 < toQ s.currentPrice) (hf0 : 0 ≤ toQ s.swapFee) (hf : toQ s.swapFee < 1)
    (hi : 0 ≤ toQ (idealAmmReserveY s)) :
    (runSteps s).2 = none →
    toQ (estimateTotalStrategyValue ((runSteps s).1))
      ≤ toQ (estimateTotalStrategyValue s) := by
  rw [runSteps]
  have v1 := withdrawAMM_value s hp hi
  have u1 := withdrawAMM_unused s hT hU hi
  set s1 := withdrawExcessesFromAMM s with hs1
  have c1 := withdrawAMM_config s
  have hp1 : 0 < toQ s1.currentPrice := by rw [c1.1]; exact hp
  have hf01 : 0 ≤ toQ s1.swapFee := by rw [c1.2.2.1]; exact hf0
  have hf1 : toQ s1.swapFee < 1 := by rw [c1.2.2.1]; exact hf
  have v2 := withdrawColl_value s1
  have u2 := withdrawColl_unused s1 u1.1 u1.2
  set s2 := withdrawExcessesFromLendingCollateral s1 with hs2
  have c2 := withdrawColl_config s1
  have hp2 : 0 < toQ s2.currentPrice := by rw [c2.1]; exact hp1
  have hf02 : 0 ≤ toQ s2.swapFee := by rw [c2.2.2.1]; exact hf01
  have hf2 : toQ s2.swapFee < 1 := by rw [c2.2.2.1]; exact hf1
  have v3 := coverBorrowed_value s2 u2.1 u2.2 hp2 hf02 hf2
  have u3 := coverBorrowed_unused s2 u2.1 u2.2 hp2 hf2
  set s3 := coverOutstandingBorrowedAmount s2 with hs3
  have c3 := coverBorrowed_config s2
  have hp3 : 0 < toQ s3.currentPrice := by rw [c3.1]; exact hp2
  have hf03 : 0 ≤ toQ s3.swapFee := by rw [c3.2.2.1]; exact hf02
  have hf3 : toQ s3.swapFee < 1 := by rw [c3.2.2.1]; exact hf2
  have v4 := coverColl_value s3 u3.1 u3.2 hp3 hf03 hf3
  have u4 := coverColl_unused s3 u3.1 u3.2 hp3 hf3
  set s4 := coverOutstandingCollateral s3 with hs4
  have c4 := coverColl_config s3
  have hp4 : 0 < toQ s4.currentPrice := by rw [c4.1]; exact hp3
  have hf04 : 0 ≤ toQ s4.swapFee := by rw [c4.2.2.1]; exact hf03
  have hf4 : toQ s4.swapFee < 1 := by rw [c4.2.2.1]; exact hf3
  have v5 := borrowIdeal_value s4
  have u5 := borrowIdeal_unused s4 u4.1 u4.2
  set s5 := borrowUntilIdealSetup s4 with hs5
  have c5 := borrowIdeal_config s4
  have hp5 : 0 < toQ s5.currentPrice := by rw [c5.1]; exact hp4
  have hf05 : 0 ≤ toQ s5.swapFee := by rw [c5.2.2.1]; exact hf04
  have hf5 : toQ s5.swapFee < 1 := by rw [c5.2.2.1]; exact hf4
  have v6 := addLiquidity_value s5 u5.1 u5.2 hp5 hf05 hf5
  intro herr
  have h6 := v6 herr
  linarith [v1, v2, v3, v4, v5, h6]

/-- In a solvent, validly configured state the inconsistency branch of
`rebalance` cannot fire. -/
theorem rebalance_no_incons (s : Strategy)
    (hT : 0 ≤ toQ s.unusedTON) (hU : 0 ≤ toQ s.unusedUSDT)
    (hp : 0 < toQ s.currentPrice) (hf0 : 0 ≤ toQ s.swapFee) (hf : toQ s.swapFee < 1)
    (hr : 0 ≤ toQ s.idealRatio) (hV : 0 ≤ toQ (estimateTotalStrategyValue s)) :
    ∀ vb va, (rebalance s).2 ≠ some (.inconsistency vb va) := by
  have hi : 0 ≤ toQ (idealAmmReserveY s) := by
    rw [idealAmmReserveY, toQ_dMul]
    exact mul_nonneg hV hr
  have hrv := runSteps_value s hT hU hp hf0 hf hi
  intro vb va
  cases he : (runSteps s).2 with
  | some e =>
    rw [rebalance_of_stepError s (by rw [he]; rfl), he]
    have hni := runSteps_no_incons s vb va
    rw [he] at hni
    exact hni
  | none =>
    have hle := hrv he
    have hcheck : dLt (dAdd (estimateTotalStrategyValue s) ⟨1, 5⟩)
        (estimateTotalStrategyValue ((runSteps s).1)) = false := by
      apply dLt_eq_false_of_le
      rw [toQ_dAdd]
      have h15 : (0:ℚ) < toQ (⟨1, 5⟩ : D) := by norm_num [toQ]
      linarith
    rw [rebalance]
    split
    · rename_i hc
      rw [he] at hc
      simp at hc
    · dsimp only
      split
      · rename_i hcc
        rw [hcheck] at hcc
        exact absurd hcc (by simp)
      · simp

/-- C1 (amended): for a valid configuration (fee in [0,1), positive price,
non-negative unused balances, non-negative ratio) at a SOLVENT state
(non-negative total value), the six rebalance steps never increase
`estimateTotalStrategyValue` at all, and consequently the fatal
internal-inconsistency branch of `rebalance` is unreachable; without the
solvency hypothesis the branch is reachable (`rebalance_incons_cex`). -/
theorem rebalance_value_spec (s : Strategy)
    (hT : 0 ≤ toQ s.unusedTON) (hU : 0 ≤ toQ s.unusedUSDT)
    (hp : 0 < toQ s.currentPrice) (hf0 : 0 ≤ toQ s.swapFee) (hf : toQ s.swapFee < 1)
    (hr : 0 ≤ toQ s.idealRatio) (hV : 0 ≤ toQ (estimateTotalStrategyValue s)) :
    ((runSteps s).2 = none →
      toQ (estimateTotalStrategyValue ((runSteps s).1))
        ≤ toQ (estimateTotalStrategyValue s)) ∧
    ∀ vb va, (rebalance s).2 ≠ some (.inconsistency vb va) := by
  have hi : 0 ≤ toQ (idealAmmReserveY s) := by
    rw [idealAmmReserveY, toQ_dMul]
    exact mul_nonneg hV hr
  exact ⟨runSteps_value s hT hU hp hf0 hf hi, rebalance_no_incons s hT hU hp hf0 hf hr hV⟩

/-- C1 counterexample: `cexInsolvent` satisfies every configuration-validity
requirement of the claim (ratio in (0,1), fee in [0,1), positive price,
non-negative balances), yet its total value is negative (the debt exceeds all
assets) and `rebalance` reaches the supposedly unreachable
internal-inconsistency branch: the re-anchoring step lifts the value from
-800 to about 252.36, far beyond the 1e-5 tolerance. -/
theorem rebalance_incons_cex :
    0 < toQ cexInsolvent.idealRatio ∧ toQ cexInsolvent.idealRatio < 1 ∧
    0 ≤ toQ cexInsolvent.swapFee ∧ toQ cexInsolvent.swapFee < 1 ∧
    0 < toQ cexInsolvent.currentPrice ∧
    0 ≤ toQ cexInsolvent.unusedTON ∧ 0 ≤ toQ cexInsolvent.unusedUSDT ∧
    0 ≤ toQ cexInsolvent.collateral ∧ 0 ≤ toQ cexInsolvent.debt ∧
    (rebalance cexInsolvent).2
      = some (.inconsistency ⟨-800000000000, 9⟩ ⟨25236000000000, 11⟩) := by
  have hr1 : toQ cexInsolvent.idealRatio < 1 := by
    have h := (dLt_true_iff cexInsolvent.idealRatio (dInt 1)).mp (by decide)
    rwa [toQ_one] at h
  have hfee : toQ cexInsolvent.swapFee < 1 := by
    have h := (dLt_true_iff cexInsolvent.swapFee (dInt 1)).mp (by decide)
    rwa [toQ_one] at h
  exact ⟨(toQ_pos_iff _).mpr (by decide), hr1, (toQ_nonneg_iff _).mpr (by decide), hfee,
    (toQ_pos_iff _).mpr (by decide), (toQ_nonneg_iff _).mpr (by decide),
    (toQ_nonneg_iff _).mpr (by decide), (toQ_nonneg_iff _).mpr (by decide),
    (toQ_nonneg_iff _).mpr (by decide), by decide⟩

/-- Witness for `rebalance_value_spec` at the freshly constructed strategy of
the simulation: the six steps succeed and do not increase the total value. -/
theorem rebalance_value_spec_witness :
    toQ (estimateTotalStrategyValue ((runSteps S0c).1))
      ≤ toQ (estimateTotalStrategyValue S0c) :=
  (rebalance_value_spec S0c
    ((toQ_nonneg_iff _).mpr (by decide))
    ((toQ_nonneg_iff _).mpr (by decide))
    ((toQ_pos_iff _).mpr (by decide))
    ((toQ_nonneg_iff _).mpr (by decide))
    (by
      have h := (dLt_true_iff S0c.swapFee (dInt 1)).mp (by decide)
      rwa [toQ_one] at h)
    ((toQ_nonneg_iff _).mpr (by decide))
    ((toQ_nonneg_iff _).mpr (by decide))).1 (by decide)

/- ### Claim C4: the nextPrice tick -/

theorem rebalance_none_stepOk (s : Strategy) (h : (rebalance s).2 = none) :
    (runSteps s).2.isSome = false := by
  cases hb : (runSteps s).2.isSome
  · rfl
  · rw [rebalance_of_stepError s hb] at h
    rw [h] at hb
    simp at hb

theorem rebalance_snd_ok (s : Strategy) (h : (runSteps s).2.isSome = false) :
    (rebalance s).2 = none ∨
    ∃ vb va, (rebalance s).2 = some (.inconsistency vb va) := by
  rw [rebalance]
  split
  · rename_i hc
    rw [h] at hc
    exact Bool.noConfusion hc
  · dsimp only
    split
    · right
      exact ⟨_, _, rfl⟩
    · left
      rfl

/-- C4: a `nextPrice` tick stores the new oracle price unconditionally,
accrues one period of lending interest and AMM yield (the early return on
liquidation keeps the rest of the state untouched), then rebalances exactly
when the post-accrual trigger `|deviation / reserveY| > 0.1` fires; on a
successful rebalance `totalRebalances` grows by one and `lastRebalancePrice`
becomes the new price, while on a failed rebalance (or no trigger) both are
unchanged.  Solvency of the post-accrual state rules out the inconsistency
error, whose non-atomic counter increment would otherwise break the
"otherwise both are unchanged" part. -/
theorem nextPrice_spec (np : D) (s : Strategy)
    (hnp : 0 < toQ np)
    (hT : 0 ≤ toQ s.unusedTON) (hU : 0 ≤ toQ s.unusedUSDT)
    (hf0 : 0 ≤ toQ s.swapFee) (hf : toQ s.swapFee < 1)
    (hsup : 0 ≤ toQ s.ammSupplyInterest) (hper : 0 ≤ toQ s.interestPeriod)
    (hr : 0 ≤ toQ s.idealRatio)
    (hV3 : 0 ≤ toQ (estimateTotalStrategyValue (postAccrualState np s))) :
    ((nextPrice np s).1).currentPrice = np ∧
    ((accrueInterest (setPrice np s).interestPeriod (setPrice np s)).2.isSome = true →
      nextPrice np s = accrueInterest (setPrice np s).interestPeriod (setPrice np s)) ∧
    ((accrueInterest (setPrice np s).interestPeriod (setPrice np s)).2.isSome = false →
      ((rebalanceTriggered (postAccrualState np s) = false →
        nextPrice np s = (postAccrualState np s, none)) ∧
      (rebalanceTriggered (postAccrualState np s) = true →
        (((rebalance (postAccrualState np s)).2 = none →
          (nextPrice np s).2 = none ∧
          ((nextPrice np s).1).totalRebalances = s.totalRebalances + 1 ∧
          ((nextPrice np s).1).lastRebalancePrice = np) ∧
        ((rebalance (postAccrualState np s)).2 ≠ none →
          (nextPrice np s).2 = (rebalance (postAccrualState np s)).2 ∧
          ((nextPrice np s).1).totalRebalances = s.totalRebalances ∧
          ((nextPrice np s).1).lastRebalancePrice = s.lastRebalancePrice))))) ∧
    ((reserveYCur (postAccrualState np s)).m ≠ 0 →
      (rebalanceTriggered (postAccrualState np s) = true ↔
        1 / 10 < |qTrunc 9 (toQ (deviationAmmReserveY (postAccrualState np s))
          / toQ (reserveYCur (postAccrualState np s)))|)) := by
  have hT3 : 0 ≤ toQ (postAccrualState np s).unusedTON := by
    show 0 ≤ toQ ((accrueInterest (setPrice np s).interestPeriod (setPrice np s)).1).unusedTON
    rw [accrue_state]
    exact hT
  have hpt : 0 ≤ toQ
      ((accrueInterest (setPrice np s).interestPeriod (setPrice np s)).1).currentPrice := by
    rw [accrue_state]
    exact hnp.le
  have hsupt : 0 ≤ toQ
      ((accrueInterest (setPrice np s).interestPeriod (setPrice np s)).1).ammSupplyInterest := by
    rw [accrue_state]
    exact hsup
  have hpert : 0 ≤ toQ
      ((accrueInterest (setPrice np s).interestPeriod (setPrice np s)).1).interestPeriod := by
    rw [accrue_state]
    exact hper
  have hU3 : 0 ≤ toQ (postAccrualState np s).unusedUSDT := by
    show 0 ≤ toQ (dAdd
      ((accrueInterest (setPrice np s).interestPeriod (setPrice np s)).1).unusedUSDT
      (generateYield
        ((accrueInterest (setPrice np s).interestPeriod (setPrice np s)).1).interestPeriod
        ((accrueInterest (setPrice np s).interestPeriod (setPrice np s)).1)))
    rw [toQ_dAdd]
    have hy := generateYield_nonneg
      ((accrueInterest (setPrice np s).interestPeriod (setPrice np s)).1).interestPeriod
      ((accrueInterest (setPrice np s).interestPeriod (setPrice np s)).1) hpt hsupt hpert
    have hUt : 0 ≤ toQ
        ((accrueInterest (setPrice np s).interestPeriod (setPrice np s)).1).unusedUSDT := by
      rw [accrue_state]
      exact hU
    linarith
  have hp3 : 0 < toQ (postAccrualState np s).currentPrice := by
    show 0 < toQ ((accrueInterest (setPrice np s).interestPeriod (setPrice np s)).1).currentPrice
    rw [accrue_state]
    exact hnp
  have hf03 : 0 ≤ toQ (postAccrualState np s).swapFee := by
    show 0 ≤ toQ ((accrueInterest (setPrice np s).interestPeriod (setPrice np s)).1).swapFee
    rw [accrue_state]
    exact hf0
  have hf3 : toQ (postAccrualState np s).swapFee < 1 := by
    show toQ ((accrueInterest (setPrice np s).interestPeriod (setPrice np s)).1).swapFee < 1
    rw [accrue_state]
    exact hf
  have hr3 : 0 ≤ toQ (postAccrualState np s).idealRatio := by
    show 0 ≤ toQ ((accrueInterest (setPrice np s).interestPeriod (setPrice np s)).1).idealRatio
    rw [accrue_state]
    exact hr
  have hcnt3 : (postAccrualState np s).totalRebalances = s.totalRebalances := by
    show ((accrueInterest (setPrice np s).interestPeriod (setPrice np s)).1).totalRebalances = _
    rw [accrue_state]
    rfl
  have hlrp3 : (postAccrualState np s).lastRebalancePrice = s.lastRebalancePrice := by
    show ((accrueInterest (setPrice np s).interestPeriod
      (setPrice np s)).1).lastRebalancePrice = _
    rw [accrue_state]
    rfl
  have hnoinc := rebalance_no_incons (postAccrualState np s)
    hT3 hU3 hp3 hf03 hf3 hr3 hV3
  have hrsc := runSteps_config (postAccrualState np s)
  refine ⟨nextPrice_price np s, ?_, ?_, ?_⟩
  · intro hsome
    rw [nextPrice]
    split
    · rfl
    · rename_i hc
      exact absurd hsome hc
  · intro hnone34
    constructor
    · intro htrigF
      rw [nextPrice]
      split
      · rename_i hc
        rw [hnone34] at hc
        exact Bool.noConfusion hc
      · dsimp only
        split
        · rename_i hc
          have hc' : rebalanceTriggered (postAccrualState np s) = true := hc
          rw [htrigF] at hc'
          exact Bool.noConfusion hc'
        · rfl
    · intro htrigT
      constructor
      · intro hrebnone
        have hcnt_ok : ((rebalance (postAccrualState np s)).1).totalRebalances
            = s.totalRebalances + 1 := by
          rw [rebalance_fst_ok _ (rebalance_none_stepOk _ hrebnone)]
          show ((runSteps (postAccrualState np s)).1).totalRebalances + 1 = _
          rw [hrsc.2.2.2.2.2.2.2.2.2, hcnt3]
        rw [nextPrice]
        split
        · rename_i hc
          rw [hnone34] at hc
          exact Bool.noConfusion hc
        · dsimp only
          split
          · split
            · rename_i hc
              have hc' : (rebalance (postAccrualState np s)).2.isSome = true := hc
              rw [hrebnone] at hc'
              simp at hc'
            · refine ⟨rfl, ?_, ?_⟩
              · show ((rebalance (postAccrualState np s)).1).totalRebalances = _
                exact hcnt_ok
              · show ((rebalance (postAccrualState np s)).1).currentPrice = np
                rw [(rebalance_frame (postAccrualState np s)).1]
                show ((accrueInterest (setPrice np s).interestPeriod
                  (setPrice np s)).1).currentPrice = np
                rw [accrue_state]
                rfl
          · rename_i hc
            have hc' : rebalanceTriggered (postAccrualState np s) = true := htrigT
            exact absurd hc' hc
      · intro hrebne
        have hsome : (runSteps (postAccrualState np s)).2.isSome = true := by
          cases hb : (runSteps (postAccrualState np s)).2.isSome
          · rcases rebalance_snd_ok _ hb with h | ⟨vb, va, h⟩
            · exact absurd h hrebne
            · exact absurd h (hnoinc vb va)
          · rfl
        have hreb_eq : rebalance (postAccrualState np s)
            = runSteps (postAccrualState np s) := rebalance_of_stepError _ hsome
        rw [nextPrice]
        split
        · rename_i hc
          rw [hnone34] at hc
          exact Bool.noConfusion hc
        · dsimp only
          split
          · split
            · refine ⟨rfl, ?_, ?_⟩
              · show ((rebalance (postAccrualState np s)).1).totalRebalances = _
                rw [hreb_eq, hrsc.2.2.2.2.2.2.2.2.2, hcnt3]
              · show ((rebalance (postAccrualState np s)).1).lastRebalancePrice = _
                rw [hreb_eq, hrsc.2.2.2.2.1, hlrp3]
            · rename_i hc
              have hc2 : ¬ (rebalance (postAccrualState np s)).2.isSome = true := hc
              rw [hreb_eq] at hc2
              exact absurd hsome hc2
          · rename_i hc
            have hc' : rebalanceTriggered (postAccrualState np s) = true := htrigT
            exact absurd hc' hc
  · intro hm
    rw [rebalanceTriggered]
    rw [if_neg hm, dLt_true_iff, toQ_dAbs, toQ_dDiv9,
      if_neg (fun h => hm ((toQ_eq_zero_iff _).mp h))]
    have h11 : toQ (⟨1, 1⟩ : D) = 1 / 10 := by norm_num [toQ]
    rw [h11]

/-- Witness for `nextPrice_spec` at the freshly constructed strategy and new
price 1. -/
theorem nextPrice_spec_witness :
    ((nextPrice ⟨1, 0⟩ S0c).1).currentPrice = ⟨1, 0⟩ :=
  (nextPrice_spec ⟨1, 0⟩ S0c
    ((toQ_pos_iff _).mpr (by decide))
    ((toQ_nonneg_iff _).mpr (by decide))
    ((toQ_nonneg_iff _).mpr (by decide))
    ((toQ_nonneg_iff _).mpr (by decide))
    (by
      have h := (dLt_true_iff S0c.swapFee (dInt 1)).mp (by decide)
      rwa [toQ_one] at h)
    ((toQ_nonneg_iff _).mpr (by decide))
    ((toQ_nonneg_iff _).mpr (by decide))
    ((toQ_nonneg_iff _).mpr (by decide))
    ((toQ_nonneg_iff _).mpr (by decide))).1
